import Mathlib

/-!
Shallow embedding of the pxls image-quantization engine (src/src/lib.rs) and
proofs about its palette extraction, dithering and upscaling logic.

Modelling conventions:
* `u8`/`u32`/`u64` values are embedded as `Nat`; where wrap-around of the
  source's machine arithmetic is reachable it is written as an explicit
  `% 2^w` (`standardise_closeness_threshold`, the `as u8` casts).
* A pixel `Rgba<u8>` is a 4-field structure of `Nat`s; `Rgba.Valid` states the
  8-bit channel bound that Rust's types enforce.
* `DynamicImage` is an `Img` record: width, height and a pixel function.
  `put_pixel` is a functional update; nested write loops are explicit folds.
* The `AtomicBool` cancellation flag is embedded as a constant `Bool`: every
  claim in scope only concerns a flag that is never set or set from the start,
  so the per-block `stop.load` checks read that constant.
* `HashMap` caches and counters are association lists in insertion order, and
  `Iterator::max_by_key` keeps the last maximum, matching its contract; the
  source's hash-map iteration order for ties is implementation-defined, this
  embedding fixes the scan order.
* Rust's `first.unwrap()` in `dither_palette` is a fallible step: the
  embedding returns `Option`, `none` marking the panic branch.
-/

/-- `u8::abs_diff` (and `u32::abs_diff`) on `Nat`: truncated-difference form,
equal to `|a - b|`. -/
def absDiff (a b : Nat) : Nat := (a - b) + (b - a)

/-- Pixel, from `Rgba<u8>`: channel values, alpha carried along. -/
structure Rgba where
  r : Nat
  g : Nat
  b : Nat
  a : Nat
deriving DecidableEq, Repr

/-- The 8-bit channel bound that the Rust type `Rgba<u8>` enforces. -/
def Rgba.Valid (p : Rgba) : Prop :=
  p.r ≤ 255 ∧ p.g ≤ 255 ∧ p.b ≤ 255 ∧ p.a ≤ 255

instance (p : Rgba) : Decidable p.Valid := by
  unfold Rgba.Valid; infer_instance

/-- `enum DistanceAlgorithm`. -/
inductive DistanceAlgorithm where
  | Euclidean
  | Manhattan
  | Product
  | Brightness
  | Luminance
  | SlowLuminance
deriving DecidableEq, Repr

/-- `euclidean_distance` from `DistanceAlgorithm::distance`. -/
def euclidean_distance (x y : Rgba) : Nat :=
  absDiff x.r y.r ^ 2 + absDiff x.g y.g ^ 2 + absDiff x.b y.b ^ 2

/-- `manhattan_distance` from `DistanceAlgorithm::distance`. -/
def manhattan_distance (x y : Rgba) : Nat :=
  absDiff x.r y.r + absDiff x.g y.g + absDiff x.b y.b

/-- `product_difference` from `DistanceAlgorithm::distance`. -/
def product_difference (x y : Rgba) : Nat :=
  absDiff (x.r * x.g * x.b) (y.r * y.g * y.b)

/-- `luminance` from `DistanceAlgorithm::distance`. -/
def luminance (x y : Rgba) : Nat :=
  absDiff (x.r * 1063 / 5000 + x.g * 447 / 625 + x.b * 361 / 5000)
    (y.r * 1063 / 5000 + y.g * 447 / 625 + y.b * 361 / 5000)

/-- `slow_luminance` from `DistanceAlgorithm::distance`; `u32::isqrt` is
`Nat.sqrt`. -/
def slow_luminance (x y : Rgba) : Nat :=
  absDiff (Nat.sqrt (x.r ^ 2 * 299 / 1000 + x.g ^ 2 * 587 / 1000 + x.b ^ 2 * 57 / 500))
    (Nat.sqrt (y.r ^ 2 * 299 / 1000 + y.g ^ 2 * 587 / 1000 + y.b ^ 2 * 57 / 500))

/-- `brightness` from `DistanceAlgorithm::distance`. -/
def brightness (x y : Rgba) : Nat :=
  absDiff (x.r + x.g + x.b) (y.r + y.g + y.b) / 3

/-- `DistanceAlgorithm::distance`. -/
def DistanceAlgorithm.distance : DistanceAlgorithm → Rgba → Rgba → Nat
  | .Euclidean, x, y => euclidean_distance x y
  | .Manhattan, x, y => manhattan_distance x y
  | .Product, x, y => product_difference x y
  | .Brightness, x, y => brightness x y
  | .Luminance, x, y => luminance x y
  | .SlowLuminance, x, y => slow_luminance x y

/-- `DistanceAlgorithm::standardise_closeness_threshold`; the squaring is u32
arithmetic, hence the explicit wrap. -/
def DistanceAlgorithm.standardise_closeness_threshold : DistanceAlgorithm → Nat → Nat
  | .Euclidean, n => n * n % 4294967296
  | .Product, n => n * n % 4294967296
  | .Manhattan, n => n
  | .Brightness, n => n
  | .Luminance, n => n
  | .SlowLuminance, n => n

/-- `struct PaletteSettings`. -/
structure PaletteSettings where
  chunks_per_dimension : Nat
  closeness_threshold : Nat
deriving DecidableEq, Repr

/-- `struct OutputSettings`. -/
structure OutputSettings where
  output_px_size : Nat
  dithering_likelihood : Nat
  dithering_scale : Nat
  scale_output_to_original : Bool
deriving DecidableEq, Repr

/-- `impl PartialEq for OutputSettings` (`OutputSettings::eq`). -/
def outputSettingsEq (x y : OutputSettings) : Bool :=
  if x.dithering_scale = 1 ∨ y.dithering_scale = 1 then
    if x.dithering_scale ≠ y.dithering_scale then
      false
    else
      x.output_px_size = y.output_px_size ∧
        x.scale_output_to_original = y.scale_output_to_original
  else
    x.output_px_size = y.output_px_size ∧
      x.dithering_likelihood = y.dithering_likelihood ∧
      x.dithering_scale = y.dithering_scale ∧
      x.scale_output_to_original = y.scale_output_to_original

/-- The loop body of `get_closest_factor`: `i` is the current offset, `fuel`
the remaining iterations of `for i in 0..number` (so `i + fuel = number` at
every call from `get_closest_factor`). -/
def gcfGo (target number : Nat) : Nat → Nat → Nat
  | _, 0 => number
  | i, fuel + 1 =>
    if number % (target + i) = 0 then target + i
    else if number % (target - i) = 0 then target - i
    else gcfGo target number (i + 1) fuel

/-- `get_closest_factor`. For `target = 0` the source underflows/divides by
zero (documented open question in the spec); the embedding is exercised only
at `target ≥ 1`, where Rust and `Nat` semantics agree. -/
def get_closest_factor (target number : Nat) : Nat :=
  gcfGo target number 0 number

theorem absDiff_comm (a b : Nat) : absDiff a b = absDiff b a := by
  unfold absDiff; omega

theorem absDiff_self (a : Nat) : absDiff a a = 0 := by
  unfold absDiff; omega

/-- Symmetry of every distance variant (shared helper). -/
theorem distance_comm (algo : DistanceAlgorithm) (x y : Rgba) :
    algo.distance x y = algo.distance y x := by
  cases algo <;>
    simp only [DistanceAlgorithm.distance, euclidean_distance, manhattan_distance,
      product_difference, brightness, luminance, slow_luminance] <;>
    rw [absDiff_comm] <;> try rw [absDiff_comm x.g, absDiff_comm x.b]

/-- Self-distance zero for every variant (shared helper). -/
theorem distance_self (algo : DistanceAlgorithm) (x : Rgba) :
    algo.distance x x = 0 := by
  cases algo <;>
    simp [DistanceAlgorithm.distance, euclidean_distance, manhattan_distance,
      product_difference, brightness, luminance, slow_luminance, absDiff_self]

/-- Full functional specification of the `get_closest_factor` loop, by
induction on the remaining iteration count: assuming no divisor was found at
any smaller offset, the result divides `number`, lies in `[1, number]`, and is
the divisor nearest to `target`, ties resolved upward. -/
theorem gcfGo_spec (target number : Nat) (ht : 1 ≤ target) (hn : 1 ≤ number) :
    ∀ fuel i, i + fuel = number →
      (∀ j, j < i → ¬ number % (target + j) = 0 ∧ ¬ number % (target - j) = 0) →
      gcfGo target number i fuel ∣ number ∧
      1 ≤ gcfGo target number i fuel ∧ gcfGo target number i fuel ≤ number ∧
      ∀ d, d ∣ number → 1 ≤ d →
        absDiff target (gcfGo target number i fuel) ≤ absDiff target d ∧
        (absDiff target d = absDiff target (gcfGo target number i fuel) →
          d ≤ gcfGo target number i fuel) := by
  intro fuel
  induction fuel with
  | zero =>
    intro i hi inv
    have hi' : i = number := by omega
    rw [hi'] at inv
    simp only [gcfGo]
    refine ⟨dvd_refl number, hn, le_refl number, ?_⟩
    intro d hd hd1
    have hdle : d ≤ number := Nat.le_of_dvd (by omega) hd
    have hdlt : d < target := by
      by_contra hge
      push_neg at hge
      have hj : d - target < number := by omega
      have := (inv (d - target) hj).1
      have heq : target + (d - target) = d := by omega
      rw [heq] at this
      exact this (Nat.mod_eq_zero_of_dvd hd)
    have hnlt : number < target := by
      by_contra hge
      push_neg at hge
      have hj : number - target < number := by omega
      have := (inv (number - target) hj).1
      have heq : target + (number - target) = number := by omega
      rw [heq] at this
      exact this (Nat.mod_eq_zero_of_dvd (dvd_refl number))
    have hfar : number ≤ target - d := by
      by_contra hclose
      push_neg at hclose
      have := (inv (target - d) hclose).2
      have heq : target - (target - d) = d := by omega
      rw [heq] at this
      exact this (Nat.mod_eq_zero_of_dvd hd)
    simp only [absDiff]
    omega
  | succ fuel ih =>
    intro i hi inv
    simp only [gcfGo]
    by_cases h1 : number % (target + i) = 0
    · simp only [h1, if_true]
      have hdvd : target + i ∣ number := Nat.dvd_of_mod_eq_zero h1
      have hle : target + i ≤ number := Nat.le_of_dvd (by omega) hdvd
      refine ⟨hdvd, by omega, hle, ?_⟩
      intro d hd hd1
      have hmin : i ≤ absDiff target d := by
        by_contra hlt
        push_neg at hlt
        rcases Nat.lt_or_ge d target with hdt | hdt
        · have heq : d = target - absDiff target d := by simp only [absDiff]; omega
          have := (inv (absDiff target d) hlt).2
          rw [← heq] at this
          exact this (Nat.mod_eq_zero_of_dvd hd)
        · have heq : d = target + absDiff target d := by simp only [absDiff]; omega
          have := (inv (absDiff target d) hlt).1
          rw [← heq] at this
          exact this (Nat.mod_eq_zero_of_dvd hd)
      constructor
      · simp only [absDiff] at *; omega
      · intro htie
        simp only [absDiff] at htie; omega
    · simp only [h1, if_false]
      by_cases h2 : number % (target - i) = 0
      · simp only [h2, if_true]
        have hpos : 1 ≤ target - i := by
          rcases Nat.eq_zero_or_pos (target - i) with hz | hp
          · rw [hz, Nat.mod_zero] at h2; omega
          · exact hp
        have hdvd : target - i ∣ number := Nat.dvd_of_mod_eq_zero h2
        have hle : target - i ≤ number := Nat.le_of_dvd (by omega) hdvd
        refine ⟨hdvd, hpos, hle, ?_⟩
        intro d hd hd1
        have hmin : i ≤ absDiff target d := by
          by_contra hlt
          push_neg at hlt
          rcases Nat.lt_or_ge d target with hdt | hdt
          · have heq : d = target - absDiff target d := by simp only [absDiff]; omega
            have := (inv (absDiff target d) hlt).2
            rw [← heq] at this
            exact this (Nat.mod_eq_zero_of_dvd hd)
          · have heq : d = target + absDiff target d := by simp only [absDiff]; omega
            have := (inv (absDiff target d) hlt).1
            rw [← heq] at this
            exact this (Nat.mod_eq_zero_of_dvd hd)
        constructor
        · simp only [absDiff] at *; omega
        · intro htie
          have hcases : d = target + i ∨ d = target - i := by
            simp only [absDiff] at htie ⊢; omega
          rcases hcases with hup | hdown
          · exfalso
            rw [← hup] at h1
            exact h1 (Nat.mod_eq_zero_of_dvd hd)
          · omega
      · simp only [h2, if_false]
        refine ih (i + 1) (by omega) ?_
        intro j hj
        rcases Nat.lt_or_ge j i with hji | hji
        · exact inv j hji
        · have hje : j = i := by omega
          rw [hje]
          exact ⟨h1, h2⟩

/-- Claim C4: for `target ≥ 1`, `modulus ≥ 1` (no u32 overflow of
`target + modulus`), `get_closest_factor target modulus` divides the modulus,
lies in `[1, modulus]`, and is the divisor nearest to `target`, a tie at equal
offset resolved in favor of the larger (upward-checked-first) candidate. -/
theorem get_closest_factor_correct (target modulus : Nat) (ht : 1 ≤ target)
    (hm : 1 ≤ modulus) (hov : target + modulus < 4294967296) :
    get_closest_factor target modulus ∣ modulus ∧
    1 ≤ get_closest_factor target modulus ∧
    get_closest_factor target modulus ≤ modulus ∧
    ∀ d, d ∣ modulus → 1 ≤ d →
      absDiff target (get_closest_factor target modulus) ≤ absDiff target d ∧
      (absDiff target d = absDiff target (get_closest_factor target modulus) →
        d ≤ get_closest_factor target modulus) :=
  gcfGo_spec target modulus ht hm modulus 0 (by omega) (by omega)

/-- Witness for C4 at `target = 4`, `modulus = 6`: the snapped value is `3`,
divides `6`, lies in `[1, 6]`, and is at least as close to `4` as the
divisor `2`. -/
theorem get_closest_factor_correct_witness :
    get_closest_factor 4 6 ∣ 6 ∧ 1 ≤ get_closest_factor 4 6 ∧
    get_closest_factor 4 6 ≤ 6 ∧ absDiff 4 (get_closest_factor 4 6) ≤ absDiff 4 2 := by
  have h := get_closest_factor_correct 4 6 (by decide) (by decide) (by decide)
  exact ⟨h.1, h.2.1, h.2.2.1, (h.2.2.2 2 (by decide) (by decide)).1⟩

/-- Claim C9: every `DistanceAlgorithm` variant is symmetric and assigns
distance zero to identical pixels. -/
theorem distance_symm_and_self_zero (algo : DistanceAlgorithm) (x y : Rgba) :
    algo.distance x y = algo.distance y x ∧ algo.distance x x = 0 :=
  ⟨distance_comm algo x y, distance_self algo x⟩

/-- Claim C6: `OutputSettings` equality is threshold-aware exactly as coded:
with `dithering_scale = 1` on either side it requires equal scales, pixel
sizes and the scaling flag, ignoring `dithering_likelihood`; otherwise all
four fields must agree.  In particular two settings differing only in
`dithering_likelihood` with both scales `1` compare equal. -/
theorem outputSettingsEq_spec (x y : OutputSettings) :
    (outputSettingsEq x y = true ↔
      (if x.dithering_scale = 1 ∨ y.dithering_scale = 1 then
        x.dithering_scale = y.dithering_scale ∧
          x.output_px_size = y.output_px_size ∧
          x.scale_output_to_original = y.scale_output_to_original
      else
        x.output_px_size = y.output_px_size ∧
          x.dithering_likelihood = y.dithering_likelihood ∧
          x.dithering_scale = y.dithering_scale ∧
          x.scale_output_to_original = y.scale_output_to_original)) ∧
    (x.dithering_scale = 1 → y.dithering_scale = 1 →
      x.output_px_size = y.output_px_size →
      x.scale_output_to_original = y.scale_output_to_original →
      outputSettingsEq x y = true) := by
  constructor
  · unfold outputSettingsEq
    split_ifs with hor hne
    · simp only [Bool.false_eq_true, false_iff]
      intro hc
      exact hne hc.1
    · push_neg at hne
      simp only [decide_eq_true_eq, hne, true_and]
    · simp only [decide_eq_true_eq]
  · intro h1 h2 h3 h4
    unfold outputSettingsEq
    rw [if_pos (Or.inl h1), if_neg (by rw [h1, h2]; exact fun hc => hc rfl)]
    simp only [decide_eq_true_eq]
    exact ⟨h3, h4⟩

/-- Witness for C6: settings `{5, 4, 1, false}` and `{5, 7, 1, false}` differ
only in `dithering_likelihood`, both have `dithering_scale = 1`, and compare
equal. -/
theorem outputSettingsEq_spec_witness :
    outputSettingsEq ⟨5, 4, 1, false⟩ ⟨5, 7, 1, false⟩ = true :=
  (outputSettingsEq_spec ⟨5, 4, 1, false⟩ ⟨5, 7, 1, false⟩).2 rfl rfl rfl rfl

/-- `DynamicImage`: dimensions plus a pixel map (`get_pixel`).  Reads outside
`[0, width) × [0, height)` panic in the source; every read performed by the
embedded algorithms stays in bounds for the inputs the theorems quantify
over. -/
structure Img where
  width : Nat
  height : Nat
  pixel : Nat → Nat → Rgba

/-- `DynamicImage::new(w, h, ColorType::Rgb8)`: zero-filled RGB storage whose
`get_pixel` reads back opaque black. -/
def Img.new (w h : Nat) : Img :=
  { width := w, height := h, pixel := fun _ _ => ⟨0, 0, 0, 255⟩ }

/-- `GenericImage::put_pixel` as a functional update. -/
def putPixel (o : Img) (x y : Nat) (c : Rgba) : Img :=
  { o with pixel := fun u v => if u = x ∧ v = y then c else o.pixel u v }

/-- The `too_close` scan in `get_palette`'s vacant-cache branch: the source's
for-loop with early `break` over the accepted colors. -/
def tooCloseFresh (algo : DistanceAlgorithm) (threshold : Nat) (pal : List Rgba)
    (px : Rgba) : Bool :=
  pal.any fun so_far => algo.distance px so_far < threshold

/-- The memoization `cache: HashMap<Rgba, bool>` as an association list. -/
def cacheLookup (cache : List (Rgba × Bool)) (px : Rgba) : Option Bool :=
  (cache.find? fun e => e.1 = px).map Prod.snd

/-- `*occurencces_of_suitably_far.entry(px).or_default() += 1` on an
association list keyed by exact pixel value. -/
def bumpOcc : List (Rgba × Nat) → Rgba → List (Rgba × Nat)
  | [], px => [(px, 1)]
  | (c, k) :: rest, px =>
    if c = px then (c, k + 1) :: rest else (c, k) :: bumpOcc rest px

/-- The per-pixel body of `get_palette`'s inner loops: consult the cache
(`Entry::Occupied`) or scan the palette and memoize (`Entry::Vacant`), then
tally the pixel if it is not too close to an accepted color. -/
def pixelStep (algo : DistanceAlgorithm) (threshold : Nat) (pal : List Rgba)
    (st : List (Rgba × Bool) × List (Rgba × Nat)) (px : Rgba) :
    List (Rgba × Bool) × List (Rgba × Nat) :=
  match cacheLookup st.1 px with
  | some too_close =>
    (st.1, if too_close then st.2 else bumpOcc st.2 px)
  | none =>
    let too_close := tooCloseFresh algo threshold pal px
    ((px, too_close) :: st.1, if too_close then st.2 else bumpOcc st.2 px)

/-- The pixels of chunk `(chunk_x, chunk_y)` in the order the source scans
them (`px_x` outer, `px_y` inner). -/
def blockPixels (img : Img) (wcs hcs cx cy : Nat) : List Rgba :=
  (List.range wcs).flatMap fun dx =>
    (List.range hcs).map fun dy => img.pixel (wcs * cx + dx) (hcs * cy + dy)

/-- `Iterator::max_by_key` over `(color, count)` pairs: `none` on an empty
iterator, otherwise the last maximal element. -/
def maxByCount (l : List (Rgba × Nat)) : Option (Rgba × Nat) :=
  l.foldl
    (fun acc p =>
      match acc with
      | none => some p
      | some q => if q.2 ≤ p.2 then some p else some q)
    none

/-- One chunk of `get_palette`'s main loop: scan the chunk's pixels through
the cache, then append the most common suitably-far color (if any) and clear
the cache. -/
def paletteBlockStep (algo : DistanceAlgorithm) (threshold : Nat) (img : Img)
    (wcs hcs : Nat) (st : List Rgba × List (Rgba × Bool)) (cx cy : Nat) :
    List Rgba × List (Rgba × Bool) :=
  let scanned := (blockPixels img wcs hcs cx cy).foldl
    (pixelStep algo threshold st.1) (st.2, [])
  match maxByCount scanned.2 with
  | some most_common => (st.1 ++ [most_common.1], [])
  | none => (st.1, scanned.1)

/-- The chunk coordinates visited by the grid double loops of `get_palette`
and row-major scans in general: outer index first, inner index second. -/
def gridCoords (m n : Nat) : List (Nat × Nat) :=
  (List.range m).flatMap fun cx => (List.range n).map fun cy => (cx, cy)

/-- The chunk grid double loop of `get_palette` (`chunk_x` outer, `chunk_y`
inner) as structural recursion over the visited coordinates, carrying the
accumulated palette and the memoization cache. -/
def paletteLoop (algo : DistanceAlgorithm) (threshold : Nat) (img : Img)
    (wcs hcs : Nat) :
    List (Nat × Nat) → List Rgba × List (Rgba × Bool) →
      List Rgba × List (Rgba × Bool)
  | [], st => st
  | c :: rest, st =>
    paletteLoop algo threshold img wcs hcs rest
      (paletteBlockStep algo threshold img wcs hcs st c.1 c.2)

/-- The full chunk scan of `get_palette` started on the empty palette and
empty cache. -/
def paletteFold (algo : DistanceAlgorithm) (threshold : Nat) (img : Img)
    (wcs hcs n : Nat) : List Rgba × List (Rgba × Bool) :=
  paletteLoop algo threshold img wcs hcs (gridCoords n n) ([], [])

/-- `get_palette`.  The cancellation flag is a constant, so a set flag means
the first per-chunk check returns the still-empty accumulator; progress
reporting has no observable effect and is dropped. -/
def get_palette (img : Img) (settings : PaletteSettings)
    (dist_algo : DistanceAlgorithm) (stop : Bool) : List Rgba :=
  let chunks_per_dimension :=
    get_closest_factor settings.chunks_per_dimension (min img.width img.height)
  let width_chunk_size := img.width / chunks_per_dimension
  let height_chunk_size := img.height / chunks_per_dimension
  if stop then []
  else
    (paletteFold dist_algo
      (dist_algo.standardise_closeness_threshold settings.closeness_threshold)
      img width_chunk_size height_chunk_size chunks_per_dimension).1

theorem flatMap_const_replicate (m : Nat) (c : Rgba) :
    ∀ l : List Nat, (l.flatMap fun _ => List.replicate m c) =
      List.replicate (l.length * m) c
  | [] => by simp
  | x :: t => by
    rw [List.flatMap_cons, flatMap_const_replicate m c t]
    have h : (x :: t).length * m = m + t.length * m := by
      simp [List.length_cons]; ring
    rw [h, List.replicate_add]

/-- On a constant image every chunk scans a replicated pixel list. -/
theorem blockPixels_const (img : Img) (c : Rgba) (himg : ∀ x y, img.pixel x y = c)
    (wcs hcs cx cy : Nat) :
    blockPixels img wcs hcs cx cy = List.replicate (wcs * hcs) c := by
  unfold blockPixels
  have hmap : (fun dx => (List.range hcs).map
      fun dy => img.pixel (wcs * cx + dx) (hcs * cy + dy)) =
      fun _ => List.replicate hcs c := by
    funext dx
    have h : (fun dy => img.pixel (wcs * cx + dx) (hcs * cy + dy)) =
        fun _ : Nat => c := funext fun dy => himg _ _
    rw [h, List.map_const', List.length_range]
  rw [hmap, flatMap_const_replicate, List.length_range]

theorem cacheLookup_cons_self (cache : List (Rgba × Bool)) (px : Rgba) (b : Bool) :
    cacheLookup ((px, b) :: cache) px = some b := by
  simp [cacheLookup, List.find?]

theorem pixelStep_hit_true (algo : DistanceAlgorithm) (threshold : Nat)
    (pal : List Rgba) (px : Rgba) (cache : List (Rgba × Bool))
    (occ : List (Rgba × Nat)) (h : cacheLookup cache px = some true) :
    pixelStep algo threshold pal (cache, occ) px = (cache, occ) := by
  unfold pixelStep
  rw [h]
  rfl

theorem pixelStep_hit_false (algo : DistanceAlgorithm) (threshold : Nat)
    (pal : List Rgba) (px : Rgba) (cache : List (Rgba × Bool))
    (occ : List (Rgba × Nat)) (h : cacheLookup cache px = some false) :
    pixelStep algo threshold pal (cache, occ) px = (cache, bumpOcc occ px) := by
  unfold pixelStep
  rw [h]
  rfl

/-- Scanning a replicated pixel whose cached verdict is `true` changes
nothing. -/
theorem foldl_pixelStep_cached_true (algo : DistanceAlgorithm) (threshold : Nat)
    (pal : List Rgba) (px : Rgba) :
    ∀ (k : Nat) (cache : List (Rgba × Bool)) (occ : List (Rgba × Nat)),
      cacheLookup cache px = some true →
      (List.replicate k px).foldl (pixelStep algo threshold pal) (cache, occ) =
        (cache, occ)
  | 0, _, _, _ => rfl
  | k + 1, cache, occ, h => by
    rw [List.replicate_succ, List.foldl_cons,
      pixelStep_hit_true algo threshold pal px cache occ h]
    exact foldl_pixelStep_cached_true algo threshold pal px k cache occ h

/-- Scanning a replicated pixel whose cached verdict is `false` bumps its
tally once per occurrence. -/
theorem foldl_pixelStep_cached_false (algo : DistanceAlgorithm) (threshold : Nat)
    (pal : List Rgba) (px : Rgba) :
    ∀ (k j : Nat) (cache : List (Rgba × Bool)),
      cacheLookup cache px = some false →
      (List.replicate k px).foldl (pixelStep algo threshold pal)
          (cache, [(px, j)]) =
        (cache, [(px, j + k)])
  | 0, j, _, _ => by simp
  | k + 1, j, cache, h => by
    rw [List.replicate_succ, List.foldl_cons,
      pixelStep_hit_false algo threshold pal px cache [(px, j)] h]
    have hbump : bumpOcc [(px, j)] px = [(px, j + 1)] := by simp [bumpOcc]
    rw [hbump, foldl_pixelStep_cached_false algo threshold pal px k (j + 1) cache h]
    have harith : j + 1 + k = j + (k + 1) := by omega
    rw [harith]

theorem pixelStep_miss (algo : DistanceAlgorithm) (threshold : Nat)
    (pal : List Rgba) (px : Rgba) (cache : List (Rgba × Bool))
    (occ : List (Rgba × Nat)) (h : cacheLookup cache px = none) :
    pixelStep algo threshold pal (cache, occ) px =
      ((px, tooCloseFresh algo threshold pal px) :: cache,
        if tooCloseFresh algo threshold pal px then occ else bumpOcc occ px) := by
  unfold pixelStep
  rw [h]

/-- One `get_palette` chunk over a constant image: the outcome depends only on
the cache entry for the pixel (or a fresh palette scan). -/
theorem paletteBlockStep_const (algo : DistanceAlgorithm) (threshold : Nat)
    (img : Img) (c : Rgba) (himg : ∀ x y, img.pixel x y = c)
    (wcs hcs cx cy : Nat) (pal : List Rgba) (cache : List (Rgba × Bool))
    (hwh : 1 ≤ wcs * hcs) :
    paletteBlockStep algo threshold img wcs hcs (pal, cache) cx cy =
      match cacheLookup cache c with
      | some true => (pal, cache)
      | some false => (pal ++ [c], [])
      | none =>
        if tooCloseFresh algo threshold pal c then (pal, (c, true) :: cache)
        else (pal ++ [c], []) := by
  obtain ⟨k, hk⟩ : ∃ k, wcs * hcs = k + 1 := ⟨wcs * hcs - 1, by omega⟩
  unfold paletteBlockStep
  dsimp only
  rw [blockPixels_const img c himg, hk, List.replicate_succ, List.foldl_cons]
  cases hc : cacheLookup cache c with
  | some b =>
    cases b with
    | true =>
      rw [pixelStep_hit_true algo threshold pal c cache [] hc,
        foldl_pixelStep_cached_true algo threshold pal c k cache [] hc]
      rfl
    | false =>
      rw [pixelStep_hit_false algo threshold pal c cache [] hc]
      have hbump : bumpOcc ([] : List (Rgba × Nat)) c = [(c, 1)] := rfl
      rw [hbump, foldl_pixelStep_cached_false algo threshold pal c k 1 cache hc]
      rfl
  | none =>
    rw [pixelStep_miss algo threshold pal c cache [] hc]
    cases hb : tooCloseFresh algo threshold pal c with
    | true =>
      rw [if_pos rfl, foldl_pixelStep_cached_true algo threshold pal c k _ []
        (cacheLookup_cons_self cache c true)]
      rfl
    | false =>
      rw [if_neg (by simp)]
      have hbump : bumpOcc ([] : List (Rgba × Nat)) c = [(c, 1)] := rfl
      rw [hbump, foldl_pixelStep_cached_false algo threshold pal c k 1 _
        (cacheLookup_cons_self cache c false)]
      rfl

theorem paletteLoop_nil (algo : DistanceAlgorithm) (threshold : Nat) (img : Img)
    (wcs hcs : Nat) (st : List Rgba × List (Rgba × Bool)) :
    paletteLoop algo threshold img wcs hcs [] st = st := rfl

theorem paletteLoop_cons (algo : DistanceAlgorithm) (threshold : Nat) (img : Img)
    (wcs hcs cx cy : Nat) (rest : List (Nat × Nat))
    (st : List Rgba × List (Rgba × Bool)) :
    paletteLoop algo threshold img wcs hcs ((cx, cy) :: rest) st =
      paletteLoop algo threshold img wcs hcs rest
        (paletteBlockStep algo threshold img wcs hcs st cx cy) := rfl

/-- `get_palette` with the flag clear, unfolded to its chunk scan. -/
theorem get_palette_eq (img : Img) (ps : PaletteSettings)
    (algo : DistanceAlgorithm) :
    get_palette img ps algo false =
      (paletteFold algo (algo.standardise_closeness_threshold ps.closeness_threshold)
        img
        (img.width / get_closest_factor ps.chunks_per_dimension (min img.width img.height))
        (img.height / get_closest_factor ps.chunks_per_dimension (min img.width img.height))
        (get_closest_factor ps.chunks_per_dimension (min img.width img.height))).1 := rfl

/-- The solid red color of spec scenario 1. -/
def red : Rgba := ⟨255, 0, 0, 255⟩

/-- The 100×100 solid-red image of spec scenario 1. -/
def red100 : Img := ⟨100, 100, fun _ _ => red⟩

/-- With `closeness_threshold = 0` no pixel is ever `too_close` (the strict
`<` comparison against `0` always fails), so each of the four chunks of the
solid-red image appends red again: the palette has four duplicate entries. -/
theorem red100_palette_threshold0 :
    get_palette red100 ⟨2, 0⟩ DistanceAlgorithm.Euclidean false =
      [red, red, red, red] := by
  have h1 : paletteBlockStep DistanceAlgorithm.Euclidean 0 red100 50 50 ([], []) 0 0
      = ([red], []) :=
    (paletteBlockStep_const DistanceAlgorithm.Euclidean 0 red100 red
      (fun _ _ => rfl) 50 50 0 0 [] [] (by norm_num)).trans rfl
  have h2 : paletteBlockStep DistanceAlgorithm.Euclidean 0 red100 50 50 ([red], []) 0 1
      = ([red, red], []) :=
    (paletteBlockStep_const DistanceAlgorithm.Euclidean 0 red100 red
      (fun _ _ => rfl) 50 50 0 1 [red] [] (by norm_num)).trans (by decide)
  have h3 : paletteBlockStep DistanceAlgorithm.Euclidean 0 red100 50 50 ([red, red], []) 1 0
      = ([red, red, red], []) :=
    (paletteBlockStep_const DistanceAlgorithm.Euclidean 0 red100 red
      (fun _ _ => rfl) 50 50 1 0 [red, red] [] (by norm_num)).trans (by decide)
  have h4 : paletteBlockStep DistanceAlgorithm.Euclidean 0 red100 50 50 ([red, red, red], []) 1 1
      = ([red, red, red, red], []) :=
    (paletteBlockStep_const DistanceAlgorithm.Euclidean 0 red100 red
      (fun _ _ => rfl) 50 50 1 1 [red, red, red] [] (by norm_num)).trans (by decide)
  rw [get_palette_eq]
  rw [show get_closest_factor (⟨2, 0⟩ : PaletteSettings).chunks_per_dimension
    (min red100.width red100.height) = 2 from rfl]
  rw [show red100.width / 2 = 50 from rfl, show red100.height / 2 = 50 from rfl]
  rw [show DistanceAlgorithm.standardise_closeness_threshold DistanceAlgorithm.Euclidean
    (⟨2, 0⟩ : PaletteSettings).closeness_threshold = 0 from rfl]
  rw [show paletteFold DistanceAlgorithm.Euclidean 0 red100 50 50 2 =
    paletteLoop DistanceAlgorithm.Euclidean 0 red100 50 50
      (gridCoords 2 2) ([], []) from rfl]
  rw [show gridCoords 2 2 = [(0, 0), (0, 1), (1, 0), (1, 1)] from rfl]
  rw [paletteLoop_cons, h1, paletteLoop_cons, h2, paletteLoop_cons, h3,
    paletteLoop_cons, h4, paletteLoop_nil]

/-- With `closeness_threshold = 1` the first chunk appends red and every later
chunk rejects it (distance `0 < 1`), so the palette is exactly `[red]`. -/
theorem red100_palette_threshold1 :
    get_palette red100 ⟨2, 1⟩ DistanceAlgorithm.Euclidean false = [red] := by
  have h1 : paletteBlockStep DistanceAlgorithm.Euclidean 1 red100 50 50 ([], []) 0 0
      = ([red], []) :=
    (paletteBlockStep_const DistanceAlgorithm.Euclidean 1 red100 red
      (fun _ _ => rfl) 50 50 0 0 [] [] (by norm_num)).trans rfl
  have h2 : paletteBlockStep DistanceAlgorithm.Euclidean 1 red100 50 50 ([red], []) 0 1
      = ([red], [(red, true)]) :=
    (paletteBlockStep_const DistanceAlgorithm.Euclidean 1 red100 red
      (fun _ _ => rfl) 50 50 0 1 [red] [] (by norm_num)).trans (by decide)
  have h3 : paletteBlockStep DistanceAlgorithm.Euclidean 1 red100 50 50
      ([red], [(red, true)]) 1 0 = ([red], [(red, true)]) :=
    (paletteBlockStep_const DistanceAlgorithm.Euclidean 1 red100 red
      (fun _ _ => rfl) 50 50 1 0 [red] [(red, true)] (by norm_num)).trans (by decide)
  have h4 : paletteBlockStep DistanceAlgorithm.Euclidean 1 red100 50 50
      ([red], [(red, true)]) 1 1 = ([red], [(red, true)]) :=
    (paletteBlockStep_const DistanceAlgorithm.Euclidean 1 red100 red
      (fun _ _ => rfl) 50 50 1 1 [red] [(red, true)] (by norm_num)).trans (by decide)
  rw [get_palette_eq]
  rw [show get_closest_factor (⟨2, 1⟩ : PaletteSettings).chunks_per_dimension
    (min red100.width red100.height) = 2 from rfl]
  rw [show red100.width / 2 = 50 from rfl, show red100.height / 2 = 50 from rfl]
  rw [show DistanceAlgorithm.standardise_closeness_threshold DistanceAlgorithm.Euclidean
    (⟨2, 1⟩ : PaletteSettings).closeness_threshold = 1 from rfl]
  rw [show paletteFold DistanceAlgorithm.Euclidean 1 red100 50 50 2 =
    paletteLoop DistanceAlgorithm.Euclidean 1 red100 50 50
      (gridCoords 2 2) ([], []) from rfl]
  rw [show gridCoords 2 2 = [(0, 0), (0, 1), (1, 0), (1, 1)] from rfl]
  rw [paletteLoop_cons, h1, paletteLoop_cons, h2, paletteLoop_cons, h3,
    paletteLoop_cons, h4, paletteLoop_nil]

/-- Invariant: later palette entries are at standardised-threshold distance
from every earlier entry (the source compares `distance(px, so_far)` with the
candidate first). -/
def PalettePairwise (algo : DistanceAlgorithm) (threshold : Nat)
    (pal : List Rgba) : Prop :=
  pal.Pairwise fun earlier later => threshold ≤ algo.distance later earlier

/-- Invariant: every memoized verdict agrees with a fresh scan of the current
palette (the cache is cleared whenever the palette grows, so entries never go
stale). -/
def CacheFaithful (algo : DistanceAlgorithm) (threshold : Nat) (pal : List Rgba)
    (cache : List (Rgba × Bool)) : Prop :=
  ∀ e ∈ cache, e.2 = tooCloseFresh algo threshold pal e.1

/-- Invariant: every tallied color passed the too-close test against the
current palette. -/
def OccFar (algo : DistanceAlgorithm) (threshold : Nat) (pal : List Rgba)
    (occ : List (Rgba × Nat)) : Prop :=
  ∀ e ∈ occ, tooCloseFresh algo threshold pal e.1 = false

theorem cacheLookup_mem (cache : List (Rgba × Bool)) (px : Rgba) (b : Bool)
    (h : cacheLookup cache px = some b) : (px, b) ∈ cache := by
  unfold cacheLookup at h
  cases hf : cache.find? fun e => e.1 = px with
  | none => rw [hf] at h; simp at h
  | some e =>
    rw [hf] at h
    simp only [Option.map_some'] at h
    have he1 : e.1 = px := by
      have := List.find?_some hf
      simpa using this
    have hmem := List.mem_of_find?_eq_some hf
    have : e = (px, b) := by
      cases e
      simp only [Option.some.injEq] at h
      simp_all
    rw [← this]
    exact hmem

theorem tooCloseFresh_false_iff (algo : DistanceAlgorithm) (threshold : Nat)
    (pal : List Rgba) (px : Rgba) :
    tooCloseFresh algo threshold pal px = false ↔
      ∀ c ∈ pal, threshold ≤ algo.distance px c := by
  simp [tooCloseFresh, List.any_eq_false, Nat.not_lt]

theorem bumpOcc_keys {P : Rgba → Prop} :
    ∀ (occ : List (Rgba × Nat)) (px : Rgba), (∀ e ∈ occ, P e.1) → P px →
      ∀ e ∈ bumpOcc occ px, P e.1
  | [], px, _, hpx, e, he => by
    simp only [bumpOcc, List.mem_singleton] at he
    rw [he]
    exact hpx
  | (c, k) :: rest, px, hocc, hpx, e, he => by
    simp only [bumpOcc] at he
    by_cases hc : c = px
    · rw [if_pos hc] at he
      rcases List.mem_cons.1 he with h1 | h1
      · rw [h1]; exact hocc (c, k) (List.mem_cons_self _ _)
      · exact hocc e (List.mem_cons_of_mem _ h1)
    · rw [if_neg hc] at he
      rcases List.mem_cons.1 he with h1 | h1
      · rw [h1]; exact hocc (c, k) (List.mem_cons_self _ _)
      · exact bumpOcc_keys rest px (fun e' he' => hocc e' (List.mem_cons_of_mem _ he')) hpx e h1

/-- The per-pixel step preserves cache faithfulness and the tally
invariant. -/
theorem pixelStep_inv (algo : DistanceAlgorithm) (threshold : Nat)
    (pal : List Rgba) (st : List (Rgba × Bool) × List (Rgba × Nat)) (px : Rgba)
    (hc : CacheFaithful algo threshold pal st.1)
    (ho : OccFar algo threshold pal st.2) :
    CacheFaithful algo threshold pal (pixelStep algo threshold pal st px).1 ∧
      OccFar algo threshold pal (pixelStep algo threshold pal st px).2 := by
  unfold pixelStep
  cases hl : cacheLookup st.1 px with
  | some b =>
    simp only
    refine ⟨hc, ?_⟩
    cases b with
    | true => exact ho
    | false =>
      have hb : tooCloseFresh algo threshold pal px = false :=
        (hc (px, false) (cacheLookup_mem st.1 px false hl)).symm
      simp only [Bool.false_eq_true, if_false]
      exact bumpOcc_keys (P := fun c => tooCloseFresh algo threshold pal c = false)
        st.2 px ho hb
  | none =>
    simp only
    constructor
    · intro e he
      rcases List.mem_cons.1 he with h1 | h1
      · rw [h1]
      · exact hc e h1
    · cases hb : tooCloseFresh algo threshold pal px with
      | true => simpa using ho
      | false =>
        simp only [Bool.false_eq_true, if_false]
        exact bumpOcc_keys (P := fun c => tooCloseFresh algo threshold pal c = false)
          st.2 px ho hb

/-- The whole pixel scan of a chunk preserves both invariants. -/
theorem pixelScan_inv (algo : DistanceAlgorithm) (threshold : Nat)
    (pal : List Rgba) :
    ∀ (pxs : List Rgba) (st : List (Rgba × Bool) × List (Rgba × Nat)),
      CacheFaithful algo threshold pal st.1 → OccFar algo threshold pal st.2 →
      CacheFaithful algo threshold pal
          (pxs.foldl (pixelStep algo threshold pal) st).1 ∧
        OccFar algo threshold pal
          (pxs.foldl (pixelStep algo threshold pal) st).2
  | [], st, hc, ho => ⟨hc, ho⟩
  | px :: pxs, st, hc, ho => by
    rw [List.foldl_cons]
    obtain ⟨hc', ho'⟩ := pixelStep_inv algo threshold pal st px hc ho
    exact pixelScan_inv algo threshold pal pxs _ hc' ho'

theorem maxByCount_go :
    ∀ (l : List (Rgba × Nat)) (acc : Option (Rgba × Nat)) (p : Rgba × Nat),
      l.foldl
          (fun acc p =>
            match acc with
            | none => some p
            | some q => if q.2 ≤ p.2 then some p else some q) acc = some p →
      p ∈ l ∨ acc = some p
  | [], _, p, h => Or.inr h
  | x :: t, acc, p, h => by
    rw [List.foldl_cons] at h
    rcases maxByCount_go t _ p h with h1 | h1
    · exact Or.inl (List.mem_cons_of_mem _ h1)
    · cases acc with
      | none =>
        have h2 : some x = some p := h1
        simp only [Option.some.injEq] at h2
        exact Or.inl (h2 ▸ List.mem_cons_self _ _)
      | some q =>
        have h2 : (if q.2 ≤ x.2 then some x else some q) = some p := h1
        by_cases hq : q.2 ≤ x.2
        · rw [if_pos hq] at h2
          simp only [Option.some.injEq] at h2
          exact Or.inl (h2 ▸ List.mem_cons_self _ _)
        · rw [if_neg hq] at h2
          exact Or.inr h2

/-- A winner of the majority vote occurs in the tally list. -/
theorem maxByCount_mem (l : List (Rgba × Nat)) (p : Rgba × Nat)
    (h : maxByCount l = some p) : p ∈ l :=
  (maxByCount_go l none p h).resolve_right (by simp)

/-- One chunk preserves the palette-pairwise and cache-faithfulness
invariants: an appended winner passed the too-close test against the whole
current palette, and the cache is cleared on append. -/
theorem paletteBlockStep_inv (algo : DistanceAlgorithm) (threshold : Nat)
    (img : Img) (wcs hcs : Nat) (st : List Rgba × List (Rgba × Bool))
    (cx cy : Nat) (hp : PalettePairwise algo threshold st.1)
    (hc : CacheFaithful algo threshold st.1 st.2) :
    PalettePairwise algo threshold
        (paletteBlockStep algo threshold img wcs hcs st cx cy).1 ∧
      CacheFaithful algo threshold
        (paletteBlockStep algo threshold img wcs hcs st cx cy).1
        (paletteBlockStep algo threshold img wcs hcs st cx cy).2 := by
  obtain ⟨hsc, hso⟩ := pixelScan_inv algo threshold st.1
    (blockPixels img wcs hcs cx cy) (st.2, []) hc (by intro e he; simp at he)
  unfold paletteBlockStep
  dsimp only
  cases hm : maxByCount ((blockPixels img wcs hcs cx cy).foldl
      (pixelStep algo threshold st.1) (st.2, [])).2 with
  | none =>
    simp only [hm]
    exact ⟨hp, hsc⟩
  | some p =>
    simp only [hm]
    have hmem := maxByCount_mem _ p hm
    have hfar := hso p hmem
    rw [tooCloseFresh_false_iff] at hfar
    constructor
    · unfold PalettePairwise at hp ⊢
      rw [List.pairwise_append]
      refine ⟨hp, List.pairwise_singleton _ _, ?_⟩
      intro a ha b hb
      simp only [List.mem_singleton] at hb
      rw [hb]
      exact hfar a ha
    · intro e he
      simp at he

/-- The whole chunk scan preserves the invariants. -/
theorem paletteLoop_inv (algo : DistanceAlgorithm) (threshold : Nat) (img : Img)
    (wcs hcs : Nat) :
    ∀ (coords : List (Nat × Nat)) (st : List Rgba × List (Rgba × Bool)),
      PalettePairwise algo threshold st.1 →
      CacheFaithful algo threshold st.1 st.2 →
      PalettePairwise algo threshold
          (paletteLoop algo threshold img wcs hcs coords st).1 ∧
        CacheFaithful algo threshold
          (paletteLoop algo threshold img wcs hcs coords st).1
          (paletteLoop algo threshold img wcs hcs coords st).2
  | [], _, hp, hc => ⟨hp, hc⟩
  | c :: rest, st, hp, hc => by
    obtain ⟨cx, cy⟩ := c
    rw [paletteLoop_cons]
    obtain ⟨hp', hc'⟩ := paletteBlockStep_inv algo threshold img wcs hcs st cx cy hp hc
    exact paletteLoop_inv algo threshold img wcs hcs rest _ hp' hc'

/-- Every palette produced by `get_palette` is pairwise at
standardised-threshold distance (shared helper). -/
theorem get_palette_pairwise (img : Img) (ps : PaletteSettings)
    (algo : DistanceAlgorithm) (stop : Bool) :
    PalettePairwise algo
      (algo.standardise_closeness_threshold ps.closeness_threshold)
      (get_palette img ps algo stop) := by
  cases stop with
  | true => exact List.Pairwise.nil
  | false =>
    rw [get_palette_eq]
    exact (paletteLoop_inv algo
      (algo.standardise_closeness_threshold ps.closeness_threshold) img _ _
      _ ([], []) List.Pairwise.nil (by intro e he; simp at he)).1

/-- Claim C1: for images and settings as in the claim (flag never set), any
two palette entries at distinct positions are at least the standardised
closeness threshold apart; the per-pixel cache (cleared on every append)
never admits a color within the threshold of an earlier-accepted one. -/
theorem get_palette_pairwise_distance (img : Img) (ps : PaletteSettings)
    (algo : DistanceAlgorithm) (hw : 1 ≤ img.width) (hh : 1 ≤ img.height)
    (hcpd : 1 ≤ ps.chunks_per_dimension) (i j : Nat)
    (hi : i < (get_palette img ps algo false).length)
    (hj : j < (get_palette img ps algo false).length) (hij : i ≠ j) :
    algo.standardise_closeness_threshold ps.closeness_threshold ≤
      algo.distance ((get_palette img ps algo false).get ⟨i, hi⟩)
        ((get_palette img ps algo false).get ⟨j, hj⟩) := by
  have hp := get_palette_pairwise img ps algo false
  unfold PalettePairwise at hp
  rw [List.pairwise_iff_get] at hp
  rcases Nat.lt_or_ge i j with hlt | hge
  · rw [distance_comm]
    exact hp ⟨i, hi⟩ ⟨j, hj⟩ hlt
  · have hj' : j < i := by omega
    exact hp ⟨j, hj⟩ ⟨i, hi⟩ hj'

/-- The 2×2 black/white image used by several witnesses: left column black,
right column white. -/
def bw2 : Img :=
  ⟨2, 2, fun x _ => if x = 0 then ⟨0, 0, 0, 255⟩ else ⟨255, 255, 255, 255⟩⟩

/-- Witness for C1 on the 2×2 black/white image with Manhattan metric and
threshold 1: the two extracted colors are at distance at least 1. -/
theorem get_palette_pairwise_distance_witness :
    1 ≤ bw2.width ∧ 1 ≤ bw2.height ∧
    DistanceAlgorithm.Manhattan.standardise_closeness_threshold 1 ≤
      DistanceAlgorithm.Manhattan.distance
        ((get_palette bw2 ⟨2, 1⟩ DistanceAlgorithm.Manhattan false).get
          ⟨0, by decide⟩)
        ((get_palette bw2 ⟨2, 1⟩ DistanceAlgorithm.Manhattan false).get
          ⟨1, by decide⟩) :=
  ⟨by decide, by decide,
    get_palette_pairwise_distance bw2 ⟨2, 1⟩ DistanceAlgorithm.Manhattan
      (by decide) (by decide) (by decide) 0 1 (by decide) (by decide)
      (by decide)⟩

theorem gridCoords_length_aux (n : Nat) :
    ∀ l : List Nat,
      (l.flatMap fun cx => (List.range n).map fun cy => (cx, cy)).length =
        l.length * n
  | [] => by simp
  | x :: t => by
    rw [List.flatMap_cons, List.length_append, gridCoords_length_aux n t]
    simp only [List.length_map, List.length_range, List.length_cons]
    ring

theorem gridCoords_length (m n : Nat) : (gridCoords m n).length = m * n := by
  unfold gridCoords
  rw [gridCoords_length_aux n (List.range m), List.length_range]

theorem paletteBlockStep_length (algo : DistanceAlgorithm) (threshold : Nat)
    (img : Img) (wcs hcs : Nat) (st : List Rgba × List (Rgba × Bool))
    (cx cy : Nat) :
    (paletteBlockStep algo threshold img wcs hcs st cx cy).1.length ≤
      st.1.length + 1 := by
  unfold paletteBlockStep
  dsimp only
  cases hm : maxByCount ((blockPixels img wcs hcs cx cy).foldl
      (pixelStep algo threshold st.1) (st.2, [])).2 with
  | none => simp [hm]
  | some p => simp [hm]

theorem paletteLoop_length (algo : DistanceAlgorithm) (threshold : Nat)
    (img : Img) (wcs hcs : Nat) :
    ∀ (coords : List (Nat × Nat)) (st : List Rgba × List (Rgba × Bool)),
      (paletteLoop algo threshold img wcs hcs coords st).1.length ≤
        st.1.length + coords.length
  | [], st => by simp [paletteLoop_nil]
  | c :: rest, st => by
    obtain ⟨cx, cy⟩ := c
    rw [paletteLoop_cons]
    have h1 := paletteLoop_length algo threshold img wcs hcs rest
      (paletteBlockStep algo threshold img wcs hcs st cx cy)
    have h2 := paletteBlockStep_length algo threshold img wcs hcs st cx cy
    simp only [List.length_cons]
    omega

/-- Counterexample to C2 as stated: a 4×4 solid image with
`chunks_per_dimension = 3` snaps up to 4 chunks per dimension and (with
threshold 0) yields 16 palette entries, exceeding `3 * 3`. -/
theorem get_palette_length_counterexample :
    ¬ ((get_palette ⟨4, 4, fun _ _ => ⟨7, 7, 7, 255⟩⟩ ⟨3, 0⟩
      DistanceAlgorithm.Euclidean false).length ≤ 3 * 3) := by decide

/-- Claim C2 amended: the palette length is bounded by `m * m` where `m` is
the snapped chunk count `get_closest_factor n (min width height)` (the bound
`n * n` for the raw settings value fails when snapping rounds up). -/
theorem get_palette_length_le (img : Img) (ps : PaletteSettings)
    (algo : DistanceAlgorithm) (hw : 1 ≤ img.width) (hh : 1 ≤ img.height)
    (hcpd : 1 ≤ ps.chunks_per_dimension) :
    (get_palette img ps algo false).length ≤
      get_closest_factor ps.chunks_per_dimension (min img.width img.height) *
        get_closest_factor ps.chunks_per_dimension (min img.width img.height) := by
  rw [get_palette_eq]
  have h := paletteLoop_length algo
    (algo.standardise_closeness_threshold ps.closeness_threshold) img
    (img.width / get_closest_factor ps.chunks_per_dimension (min img.width img.height))
    (img.height / get_closest_factor ps.chunks_per_dimension (min img.width img.height))
    (gridCoords
      (get_closest_factor ps.chunks_per_dimension (min img.width img.height))
      (get_closest_factor ps.chunks_per_dimension (min img.width img.height)))
    ([], [])
  rw [gridCoords_length] at h
  simpa using h

/-- Witness for the amended C2 on the 2×2 black/white image: palette length is
at most `2 * 2`. -/
theorem get_palette_length_le_witness :
    (get_palette bw2 ⟨2, 1⟩ DistanceAlgorithm.Manhattan false).length ≤
      get_closest_factor 2 (min bw2.width bw2.height) *
        get_closest_factor 2 (min bw2.width bw2.height) :=
  get_palette_length_le bw2 ⟨2, 1⟩ DistanceAlgorithm.Manhattan (by decide)
    (by decide) (by decide)

/-- Counterexample to C3 as stated: on the 100×100 solid-red image with
`chunks_per_dimension = 2` and `closeness_threshold = 0` the palette has four
entries, not one (threshold 0 never rejects anything, so every chunk appends
red again). -/
theorem get_palette_scenario1_counterexample :
    ¬ ((get_palette red100 ⟨2, 0⟩ DistanceAlgorithm.Euclidean false).length = 1) := by
  rw [red100_palette_threshold0]
  decide

/-- Claim C3 amended: with `closeness_threshold = 1` (any threshold whose
standardised value is at least 1) the 100×100 solid-red scenario yields
exactly one entry, equal to red; and in general the palette has no duplicate
colors whenever the standardised threshold is at least 1. -/
theorem get_palette_scenario1_amended :
    get_palette red100 ⟨2, 1⟩ DistanceAlgorithm.Euclidean false = [red] ∧
    ∀ (img : Img) (ps : PaletteSettings) (algo : DistanceAlgorithm),
      1 ≤ algo.standardise_closeness_threshold ps.closeness_threshold →
      (get_palette img ps algo false).Nodup := by
  refine ⟨red100_palette_threshold1, ?_⟩
  intro img ps algo hT
  have hp := get_palette_pairwise img ps algo false
  unfold PalettePairwise at hp
  refine hp.imp ?_
  intro a b hR heq
  rw [heq, distance_self] at hR
  omega

/-- Witness for the amended C3: the two-color palette of the 2×2 black/white
image has no duplicates (threshold standardises to 1). -/
theorem get_palette_scenario1_amended_witness :
    (get_palette bw2 ⟨2, 1⟩ DistanceAlgorithm.Manhattan false).Nodup :=
  get_palette_scenario1_amended.2 bw2 ⟨2, 1⟩ DistanceAlgorithm.Manhattan
    (by decide)

/-- The inner loop of a nested write: walk the `Y`s at fixed column `X`. -/
def writeCol (o : Img) (X : Nat) (ys : List Nat) (v : Nat → Nat → Rgba) : Img :=
  ys.foldl (fun o Y => putPixel o X Y (v X Y)) o

/-- A nested write loop: for each `X` in `xs` (outer) and `Y` in `ys` (inner)
write `v X Y` at `(X, Y)`. Both dither block filling and upscale replication
are loops of this shape. -/
def writeRect (o : Img) (xs ys : List Nat) (v : Nat → Nat → Rgba) : Img :=
  xs.foldl (fun o X => writeCol o X ys v) o

/-- The channel-wise block average of `dither_palette`: `u64` accumulation
(never overflowing for any physically representable image, embedded as `Nat`)
divided by the pixel count, cast back with `as u8` (`% 256`), alpha
`u8::MAX`. -/
def blockAverage (input : Img) (sz cx cy : Nat) : Rgba :=
  let acc := ((List.range sz).flatMap fun dx =>
      (List.range sz).map fun dy => input.pixel (sz * cx + dx) (sz * cy + dy)).foldl
    (fun (a : Nat × Nat × Nat) px => (a.1 + px.r, a.2.1 + px.g, a.2.2 + px.b))
    (0, 0, 0)
  ⟨acc.1 / (sz * sz) % 256, acc.2.1 / (sz * sz) % 256, acc.2.2 / (sz * sz) % 256, 255⟩

/-- One step of the closest/second-closest scan of `dither_palette`: a strict
improvement shifts the current best into second place. -/
def closestTwoStep (algo : DistanceAlgorithm) (av : Rgba)
    (st : Option Rgba × Nat × Option Rgba × Nat) (px : Rgba) :
    Option Rgba × Nat × Option Rgba × Nat :=
  let dist := algo.distance px av
  if dist < st.2.1 then (some px, dist, st.1, st.2.1)
  else if dist < st.2.2.2 then (st.1, st.2.1, some px, dist)
  else st

/-- The single linear scan of `dither_palette` tracking the closest and
second-closest palette colors with their distances; `u32::MAX` is the initial
distance. -/
def closestTwo (algo : DistanceAlgorithm) (palette : List Rgba) (av : Rgba) :
    Option Rgba × Nat × Option Rgba × Nat :=
  palette.foldl (closestTwoStep algo av) (none, 4294967295, none, 4294967295)

/-- The block color decision of `dither_palette`: `first.unwrap()` is the
`none` case; `second` falls back to `first` when absent or when
`dithering_scale == 1`, and otherwise the likelihood test picks between
solid fill (`first`) and blend (`second`). -/
def blockChoice (algo : DistanceAlgorithm) (palette : List Rgba)
    (dithering_likelihood dithering_scale : Nat) (av : Rgba) :
    Option (Rgba × Rgba) :=
  match closestTwo algo palette av with
  | (none, _, _, _) => none
  | (some first, first_distance, secondOpt, second_distance) =>
    let second :=
      match secondOpt with
      | none => first
      | some s =>
        if dithering_scale = 1 then first
        else if absDiff first_distance second_distance >
            algo.distance first s / dithering_likelihood then first
        else s
    some (first, second)

/-- The checkerboard predicate of the block-writing loop: start from
`px_y % 2 == 0`, flip when `px_x % 2 == 0`, and only dither at scale `> 1`. -/
def shouldDither (dithering_scale px_x px_y : Nat) : Bool :=
  (if px_x % 2 = 0 then !(decide (px_y % 2 = 0)) else decide (px_y % 2 = 0)) &&
    decide (1 < dithering_scale)

/-- The block-writing double loop of `dither_palette`: the block's
`dithering_scale × dithering_scale` output footprint gets `first` on
checkerboard positions and the chosen `second` elsewhere. -/
def writeBlock (o : Img) (dithering_scale cx cy : Nat) (first second : Rgba) :
    Img :=
  writeRect o
    ((List.range dithering_scale).map fun dx => dithering_scale * cx + dx)
    ((List.range dithering_scale).map fun dy => dithering_scale * cy + dy)
    (fun px_x px_y =>
      if shouldDither dithering_scale px_x px_y then first else second)

/-- The per-block body of `dither_palette`'s grid loop, `none` when the
`first.unwrap()` panic branch is reached (empty palette). -/
def ditherBlock (input : Img) (palette : List Rgba) (algo : DistanceAlgorithm)
    (dithering_likelihood dithering_scale sz : Nat) (o : Img) (cx cy : Nat) :
    Option Img :=
  match blockChoice algo palette dithering_likelihood dithering_scale
      (blockAverage input sz cx cy) with
  | none => none
  | some fs => some (writeBlock o dithering_scale cx cy fs.1 fs.2)

/-- The chunk grid double loop of `dither_palette` as structural recursion
over the visited coordinates. -/
def ditherLoop (input : Img) (palette : List Rgba) (algo : DistanceAlgorithm)
    (dithering_likelihood dithering_scale sz : Nat) :
    List (Nat × Nat) → Option Img → Option Img
  | [], acc => acc
  | c :: rest, acc =>
    ditherLoop input palette algo dithering_likelihood dithering_scale sz rest
      (acc.bind fun o =>
        ditherBlock input palette algo dithering_likelihood dithering_scale sz
          o c.1 c.2)

/-- The upscale pass of `dither_palette` (`scale_output_to_original`):
replicate each coarse pixel into a `factor × factor` block of a fresh
`output_w * factor × output_h * factor` image. -/
def upscaleRow (src : Img) (factor x : Nat) (ys : List Nat) (o : Img) : Img :=
  ys.foldl
    (fun o y =>
      writeRect o ((List.range factor).map fun px_x => factor * x + px_x)
        ((List.range factor).map fun px_y => factor * y + px_y)
        (fun _ _ => src.pixel x y))
    o

def upscale (src : Img) (factor output_w output_h : Nat) : Img :=
  (List.range output_w).foldl
    (fun o x => upscaleRow src factor x (List.range output_h) o)
    (Img.new (output_w * factor) (output_h * factor))

/-- `dither_palette`.  With a constant cancellation flag, a set flag returns
the fresh output image at the first block check (skipping the upscale pass);
when the block grid is empty that check is never reached and control falls
through to the upscale pass.  The `none` result marks the
`first.unwrap()` panic on an empty palette. -/
def dither_palette (input : Img) (palette : List Rgba)
    (distance_algorithm : DistanceAlgorithm) (os : OutputSettings)
    (stop : Bool) : Option Img :=
  let output_px_size :=
    get_closest_factor ((1 : Nat) <<< (os.output_px_size - 1)) input.width
  let num_width_chunks := input.width / output_px_size
  let num_height_chunks := input.height / output_px_size
  let output_w :=
    if os.dithering_scale = 1 then num_width_chunks
    else num_width_chunks * os.dithering_scale
  let output_h :=
    if os.dithering_scale = 1 then num_height_chunks
    else num_height_chunks * os.dithering_scale
  if stop ∧ 0 < num_width_chunks ∧ 0 < num_height_chunks then
    some (Img.new output_w output_h)
  else
    (ditherLoop input palette distance_algorithm os.dithering_likelihood
        os.dithering_scale output_px_size
        (gridCoords num_width_chunks num_height_chunks)
        (some (Img.new output_w output_h))).map
      fun output =>
        if os.scale_output_to_original then
          upscale output
            (if os.dithering_scale = 1 then output_px_size
             else output_px_size / os.dithering_scale)
            output_w output_h
        else output

/-- The scan state always records the exact distances of the tracked
colors. -/
theorem closestTwoStep_tracks (algo : DistanceAlgorithm) (av : Rgba)
    (st : Option Rgba × Nat × Option Rgba × Nat) (px : Rgba)
    (h1 : ∀ c, st.1 = some c → st.2.1 = algo.distance c av)
    (h2 : ∀ c, st.2.2.1 = some c → st.2.2.2 = algo.distance c av) :
    (∀ c, (closestTwoStep algo av st px).1 = some c →
      (closestTwoStep algo av st px).2.1 = algo.distance c av) ∧
    (∀ c, (closestTwoStep algo av st px).2.2.1 = some c →
      (closestTwoStep algo av st px).2.2.2 = algo.distance c av) := by
  unfold closestTwoStep
  dsimp only
  split
  · constructor
    · intro c hc
      simp only [Option.some.injEq] at hc
      rw [← hc]
    · exact h1
  · split
    · exact ⟨h1, fun c hc => by
        simp only [Option.some.injEq] at hc
        rw [← hc]⟩
    · exact ⟨h1, h2⟩

theorem closestTwo_go_tracks (algo : DistanceAlgorithm) (av : Rgba) :
    ∀ (l : List Rgba) (st : Option Rgba × Nat × Option Rgba × Nat),
      (∀ c, st.1 = some c → st.2.1 = algo.distance c av) →
      (∀ c, st.2.2.1 = some c → st.2.2.2 = algo.distance c av) →
      (∀ c, (l.foldl (closestTwoStep algo av) st).1 = some c →
        (l.foldl (closestTwoStep algo av) st).2.1 = algo.distance c av) ∧
      (∀ c, (l.foldl (closestTwoStep algo av) st).2.2.1 = some c →
        (l.foldl (closestTwoStep algo av) st).2.2.2 = algo.distance c av)
  | [], _, h1, h2 => ⟨h1, h2⟩
  | px :: rest, st, h1, h2 => by
    rw [List.foldl_cons]
    obtain ⟨h1', h2'⟩ := closestTwoStep_tracks algo av st px h1 h2
    exact closestTwo_go_tracks algo av rest _ h1' h2'

/-- The recorded first/second distances of `closestTwo` are the true
distances of the recorded colors. -/
theorem closestTwo_tracks (algo : DistanceAlgorithm) (palette : List Rgba)
    (av : Rgba) :
    (∀ c, (closestTwo algo palette av).1 = some c →
      (closestTwo algo palette av).2.1 = algo.distance c av) ∧
    (∀ c, (closestTwo algo palette av).2.2.1 = some c →
      (closestTwo algo palette av).2.2.2 = algo.distance c av) :=
  closestTwo_go_tracks algo av palette (none, 4294967295, none, 4294967295)
    (fun c hc => by simp at hc) (fun c hc => by simp at hc)

theorem absDiff_triangle_chan (a b c : Nat) :
    absDiff (absDiff a c) (absDiff b c) ≤ absDiff a b := by
  unfold absDiff; omega

theorem absDiff_add3 (a1 a2 a3 b1 b2 b3 : Nat) :
    absDiff (a1 + a2 + a3) (b1 + b2 + b3) ≤
      absDiff a1 b1 + absDiff a2 b2 + absDiff a3 b3 := by
  unfold absDiff; omega

/-- Reverse triangle inequality for the Manhattan metric: the distances of
two colors to a common reference differ by at most their inter-distance. -/
theorem manhattan_reverse_triangle (x y z : Rgba) :
    absDiff (manhattan_distance x z) (manhattan_distance y z) ≤
      manhattan_distance x y :=
  le_trans (absDiff_add3 _ _ _ _ _ _)
    (add_le_add
      (add_le_add (absDiff_triangle_chan _ _ _) (absDiff_triangle_chan _ _ _))
      (absDiff_triangle_chan _ _ _))

/-- Claim C5 amended: with `dithering_likelihood = 1` blending is not
suppressed; under the Manhattan metric the solid-fill test
`|d1 - d2| > inter / 1` can never pass (reverse triangle inequality), so
whenever a second-closest color exists and `dithering_scale > 1` the block
decision keeps the genuine second color and the block is rendered with both
colors interleaved. -/
theorem blockChoice_likelihood_one_blends (palette : List Rgba) (ds : Nat)
    (av first s : Rgba) (fd sd : Nat) (hds : 2 ≤ ds)
    (hct : closestTwo DistanceAlgorithm.Manhattan palette av =
      (some first, fd, some s, sd)) :
    blockChoice DistanceAlgorithm.Manhattan palette 1 ds av = some (first, s) := by
  have htr := closestTwo_tracks DistanceAlgorithm.Manhattan palette av
  have hfd : fd = DistanceAlgorithm.Manhattan.distance first av := by
    have := htr.1 first
    rw [hct] at this
    exact this rfl
  have hsd : sd = DistanceAlgorithm.Manhattan.distance s av := by
    have := htr.2 s
    rw [hct] at this
    exact this rfl
  unfold blockChoice
  rw [hct]
  dsimp only
  have hds1 : ¬ ds = 1 := by omega
  rw [if_neg hds1]
  have hno : ¬ (absDiff fd sd >
      DistanceAlgorithm.Manhattan.distance first s / 1) := by
    rw [Nat.div_one, hfd, hsd]
    have := manhattan_reverse_triangle first s av
    simp only [DistanceAlgorithm.distance]
    omega
  rw [if_neg hno]

/-- The 2×2 all-gray image used by the dithering witnesses. -/
def gray2 : Img := ⟨2, 2, fun _ _ => ⟨100, 100, 100, 255⟩⟩

/-- Counterexample to C5 as stated: with `dithering_likelihood = 1`,
`dithering_scale = 2` and palette `[black, white]` under Manhattan on the
2×2 gray image, the output pixel `(0, 0)` is white — the second-closest
color — even though black is strictly closer to the block average; the block
is not solid-filled with the closest color. -/
theorem dither_likelihood_one_counterexample :
    (dither_palette gray2 [⟨0, 0, 0, 255⟩, ⟨255, 255, 255, 255⟩]
        DistanceAlgorithm.Manhattan ⟨2, 1, 2, false⟩ false).map
      (fun o => o.pixel 0 0) = some ⟨255, 255, 255, 255⟩ ∧
    DistanceAlgorithm.Manhattan.distance ⟨0, 0, 0, 255⟩ ⟨100, 100, 100, 255⟩ <
      DistanceAlgorithm.Manhattan.distance ⟨255, 255, 255, 255⟩
        ⟨100, 100, 100, 255⟩ := by
  constructor
  · decide
  · decide

/-- Witness for the amended C5: on the concrete gray block average the
decision keeps `(black, white)` — both colors are used. -/
theorem blockChoice_likelihood_one_blends_witness :
    blockChoice DistanceAlgorithm.Manhattan
        [⟨0, 0, 0, 255⟩, ⟨255, 255, 255, 255⟩] 1 2 ⟨100, 100, 100, 255⟩ =
      some (⟨0, 0, 0, 255⟩, ⟨255, 255, 255, 255⟩) :=
  blockChoice_likelihood_one_blends [⟨0, 0, 0, 255⟩, ⟨255, 255, 255, 255⟩] 2
    ⟨100, 100, 100, 255⟩ ⟨0, 0, 0, 255⟩ ⟨255, 255, 255, 255⟩ 300 465
    (by norm_num) (by decide)

/-- Every distance between 8-bit-valid pixels is strictly below `u32::MAX`,
so the first scanned palette color always beats the initial distance. -/
theorem distance_lt_umax (algo : DistanceAlgorithm) (x y : Rgba)
    (hx : x.Valid) (hy : y.Valid) : algo.distance x y < 4294967295 := by
  obtain ⟨hxr, hxg, hxb, _⟩ := hx
  obtain ⟨hyr, hyg, hyb, _⟩ := hy
  cases algo with
  | Euclidean =>
    simp only [DistanceAlgorithm.distance, euclidean_distance]
    have b1 : absDiff x.r y.r ≤ 255 := by unfold absDiff; omega
    have b2 : absDiff x.g y.g ≤ 255 := by unfold absDiff; omega
    have b3 : absDiff x.b y.b ≤ 255 := by unfold absDiff; omega
    have h1 : absDiff x.r y.r ^ 2 ≤ 65025 :=
      le_trans (Nat.pow_le_pow_left b1 2) (by norm_num)
    have h2 : absDiff x.g y.g ^ 2 ≤ 65025 :=
      le_trans (Nat.pow_le_pow_left b2 2) (by norm_num)
    have h3 : absDiff x.b y.b ^ 2 ≤ 65025 :=
      le_trans (Nat.pow_le_pow_left b3 2) (by norm_num)
    omega
  | Manhattan =>
    simp only [DistanceAlgorithm.distance, manhattan_distance]
    unfold absDiff
    omega
  | Product =>
    simp only [DistanceAlgorithm.distance, product_difference]
    have h1 : x.r * x.g * x.b ≤ 16581375 :=
      le_trans (Nat.mul_le_mul (Nat.mul_le_mul hxr hxg) hxb) (by norm_num)
    have h2 : y.r * y.g * y.b ≤ 16581375 :=
      le_trans (Nat.mul_le_mul (Nat.mul_le_mul hyr hyg) hyb) (by norm_num)
    unfold absDiff
    omega
  | Brightness =>
    simp only [DistanceAlgorithm.distance, brightness]
    unfold absDiff
    omega
  | Luminance =>
    simp only [DistanceAlgorithm.distance, luminance]
    unfold absDiff
    omega
  | SlowLuminance =>
    simp only [DistanceAlgorithm.distance, slow_luminance]
    have h1 : x.r ^ 2 ≤ 65025 := le_trans (Nat.pow_le_pow_left hxr 2) (by norm_num)
    have h2 : x.g ^ 2 ≤ 65025 := le_trans (Nat.pow_le_pow_left hxg 2) (by norm_num)
    have h3 : x.b ^ 2 ≤ 65025 := le_trans (Nat.pow_le_pow_left hxb 2) (by norm_num)
    have h4 : y.r ^ 2 ≤ 65025 := le_trans (Nat.pow_le_pow_left hyr 2) (by norm_num)
    have h5 : y.g ^ 2 ≤ 65025 := le_trans (Nat.pow_le_pow_left hyg 2) (by norm_num)
    have h6 : y.b ^ 2 ≤ 65025 := le_trans (Nat.pow_le_pow_left hyb 2) (by norm_num)
    have s1 := Nat.sqrt_le_self
      (x.r ^ 2 * 299 / 1000 + x.g ^ 2 * 587 / 1000 + x.b ^ 2 * 57 / 500)
    have s2 := Nat.sqrt_le_self
      (y.r ^ 2 * 299 / 1000 + y.g ^ 2 * 587 / 1000 + y.b ^ 2 * 57 / 500)
    unfold absDiff
    omega

/-- The block average is always an 8-bit-valid pixel (`as u8` wraps to
`[0, 255]`, alpha is `u8::MAX`). -/
theorem blockAverage_valid (input : Img) (sz cx cy : Nat) :
    (blockAverage input sz cx cy).Valid := by
  unfold blockAverage Rgba.Valid
  refine ⟨?_, ?_, ?_, le_refl 255⟩ <;>
    exact Nat.le_of_lt_succ (Nat.mod_lt _ (by norm_num))

theorem closestTwoStep_isSome (algo : DistanceAlgorithm) (av : Rgba)
    (st : Option Rgba × Nat × Option Rgba × Nat) (px : Rgba)
    (h : st.1.isSome = true) :
    (closestTwoStep algo av st px).1.isSome = true := by
  unfold closestTwoStep
  dsimp only
  split
  · rfl
  · split
    · exact h
    · exact h

theorem closestTwo_go_isSome (algo : DistanceAlgorithm) (av : Rgba) :
    ∀ (l : List Rgba) (st : Option Rgba × Nat × Option Rgba × Nat),
      st.1.isSome = true →
      (l.foldl (closestTwoStep algo av) st).1.isSome = true
  | [], _, h => h
  | px :: rest, st, h => by
    rw [List.foldl_cons]
    exact closestTwo_go_isSome algo av rest _ (closestTwoStep_isSome algo av st px h)

/-- On a non-empty, 8-bit-valid palette the closest-color scan always finds a
first color. -/
theorem closestTwo_isSome (algo : DistanceAlgorithm) (palette : List Rgba)
    (av : Rgba) (hne : palette ≠ []) (hval : ∀ c ∈ palette, c.Valid)
    (hav : av.Valid) : (closestTwo algo palette av).1.isSome = true := by
  cases palette with
  | nil => exact absurd rfl hne
  | cons c rest =>
    unfold closestTwo
    rw [List.foldl_cons]
    apply closestTwo_go_isSome
    have hd : algo.distance c av < 4294967295 :=
      distance_lt_umax algo c av (hval c (List.mem_cons_self _ _)) hav
    unfold closestTwoStep
    dsimp only
    rw [if_pos hd]
    rfl

/-- A non-empty valid palette makes every per-block step succeed. -/
theorem ditherBlock_isSome (input : Img) (palette : List Rgba)
    (algo : DistanceAlgorithm) (dl ds sz : Nat) (o : Img) (cx cy : Nat)
    (hne : palette ≠ []) (hval : ∀ c ∈ palette, c.Valid) :
    (ditherBlock input palette algo dl ds sz o cx cy).isSome = true := by
  unfold ditherBlock
  have hs := closestTwo_isSome algo palette (blockAverage input sz cx cy) hne
    hval (blockAverage_valid input sz cx cy)
  unfold blockChoice
  rcases hct : closestTwo algo palette (blockAverage input sz cx cy) with
    ⟨o1, d1, o2, d2⟩
  rw [hct] at hs
  cases o1 with
  | none => simp at hs
  | some f => rfl

theorem ditherLoop_none (input : Img) (palette : List Rgba)
    (algo : DistanceAlgorithm) (dl ds sz : Nat) :
    ∀ coords : List (Nat × Nat),
      ditherLoop input palette algo dl ds sz coords none = none
  | [] => rfl
  | _ :: rest => ditherLoop_none input palette algo dl ds sz rest

theorem ditherLoop_isSome (input : Img) (palette : List Rgba)
    (algo : DistanceAlgorithm) (dl ds sz : Nat) (hne : palette ≠ [])
    (hval : ∀ c ∈ palette, c.Valid) :
    ∀ (coords : List (Nat × Nat)) (acc : Option Img), acc.isSome = true →
      (ditherLoop input palette algo dl ds sz coords acc).isSome = true
  | [], _, h => h
  | c :: rest, acc, h => by
    show (ditherLoop input palette algo dl ds sz rest
      (acc.bind fun o => ditherBlock input palette algo dl ds sz o c.1 c.2)).isSome = true
    apply ditherLoop_isSome input palette algo dl ds sz hne hval rest
    cases acc with
    | none => simp at h
    | some o =>
      simpa using ditherBlock_isSome input palette algo dl ds sz o c.1 c.2 hne hval

/-- For `m, n ≥ 1` the grid starts at block `(0, 0)`. -/
theorem gridCoords_head (m n : Nat) (hm : 0 < m) (hn : 0 < n) :
    ∃ rest, gridCoords m n = (0, 0) :: rest := by
  obtain ⟨k, hk⟩ : ∃ k, m = k + 1 := ⟨m - 1, by omega⟩
  obtain ⟨j, hj⟩ : ∃ j, n = j + 1 := ⟨n - 1, by omega⟩
  subst hk hj
  unfold gridCoords
  rw [List.range_succ_eq_map, List.flatMap_cons, List.range_succ_eq_map,
    List.map_cons, List.cons_append]
  exact ⟨_, rfl⟩

/-- `get_closest_factor` bounds without the overflow side condition (shared
helper): the result divides, and lies within, `[1, number]`. -/
theorem get_closest_factor_bounds (target number : Nat) (ht : 1 ≤ target)
    (hn : 1 ≤ number) :
    get_closest_factor target number ∣ number ∧
      1 ≤ get_closest_factor target number ∧
      get_closest_factor target number ≤ number := by
  have h := gcfGo_spec target number ht hn number 0 (by omega) (by omega)
  exact ⟨h.1, h.2.1, h.2.2.1⟩

theorem one_shiftLeft_pos (k : Nat) : 1 ≤ (1 : Nat) <<< k := by
  rw [Nat.shiftLeft_eq, one_mul]
  exact Nat.one_le_two_pow

theorem ditherLoop_cons (input : Img) (palette : List Rgba)
    (algo : DistanceAlgorithm) (dl ds sz cx cy : Nat)
    (rest : List (Nat × Nat)) (acc : Option Img) :
    ditherLoop input palette algo dl ds sz ((cx, cy) :: rest) acc =
      ditherLoop input palette algo dl ds sz rest
        (acc.bind fun o => ditherBlock input palette algo dl ds sz o cx cy) :=
  rfl

/-- With an empty palette every visited block hits the `first.unwrap()`
branch, so a non-empty block grid forces the failure. -/
theorem ditherLoop_nil_palette (input : Img) (algo : DistanceAlgorithm)
    (dl ds sz : Nat) :
    ∀ (coords : List (Nat × Nat)) (acc : Option Img), coords ≠ [] →
      ditherLoop input [] algo dl ds sz coords acc = none
  | [], _, h => absurd rfl h
  | c :: rest, acc, _ => by
    obtain ⟨cx, cy⟩ := c
    rw [ditherLoop_cons]
    have hb : (acc.bind fun o => ditherBlock input [] algo dl ds sz o cx cy) =
        none := by
      cases acc with
      | none => rfl
      | some o => rfl
    rw [hb]
    exact ditherLoop_none input [] algo dl ds sz rest

/-- Claim C10: with the flag clear and a block grid of at least one block, an
empty palette reaches the `first.unwrap()` panic branch (the embedding
returns `none`); with any non-empty 8-bit-valid palette that branch is
unreachable and `dither_palette` is total. -/
theorem dither_palette_requires_palette (input : Img)
    (algo : DistanceAlgorithm) (os : OutputSettings) (hw : 1 ≤ input.width)
    (hops : 1 ≤ os.output_px_size) (hdl : 1 ≤ os.dithering_likelihood)
    (hgrid : 1 ≤ input.height /
      get_closest_factor ((1 : Nat) <<< (os.output_px_size - 1)) input.width) :
    dither_palette input [] algo os false = none ∧
    ∀ palette : List Rgba, palette ≠ [] → (∀ c ∈ palette, c.Valid) →
      (dither_palette input palette algo os false).isSome = true := by
  have hb := get_closest_factor_bounds ((1 : Nat) <<< (os.output_px_size - 1))
    input.width (one_shiftLeft_pos _) hw
  have hnwc : 0 < input.width /
      get_closest_factor ((1 : Nat) <<< (os.output_px_size - 1)) input.width :=
    Nat.div_pos hb.2.2 hb.2.1
  constructor
  · unfold dither_palette
    rw [if_neg (fun hc => by simp at hc)]
    rw [ditherLoop_nil_palette input algo os.dithering_likelihood
      os.dithering_scale _ _ _ ?_]
    · rfl
    · obtain ⟨rest, hgc⟩ := gridCoords_head _ _ hnwc hgrid
      rw [hgc]
      exact List.cons_ne_nil _ _
  · intro palette hne hval
    unfold dither_palette
    rw [if_neg (fun hc => by simp at hc)]
    rw [Option.isSome_map']
    exact ditherLoop_isSome input palette algo os.dithering_likelihood
      os.dithering_scale _ hne hval _ _ rfl

/-- Witness for C10 on the 2×2 gray image: the empty palette fails, a
one-color palette succeeds. -/
theorem dither_palette_requires_palette_witness :
    dither_palette gray2 [] DistanceAlgorithm.Manhattan ⟨2, 1, 2, false⟩ false = none ∧
    (dither_palette gray2 [⟨0, 0, 0, 255⟩] DistanceAlgorithm.Manhattan
      ⟨2, 1, 2, false⟩ false).isSome = true := by
  have h := dither_palette_requires_palette gray2 DistanceAlgorithm.Manhattan
    ⟨2, 1, 2, false⟩ (by decide) (by decide) (by decide) (by decide)
  exact ⟨h.1, h.2 [⟨0, 0, 0, 255⟩] (by simp) (by decide)⟩

/-- Claim C7 amended: with the cancellation flag set from the start and a
non-empty block grid (at least one block row: `height / snapped_size ≥ 1`),
`get_palette` returns the empty palette and `dither_palette` returns the
fresh (all-black, never-written) image of the computed coarse output
dimensions, for any palette including the empty one; the early return skips
the upscale pass.  (Without the grid condition the loop body is never
entered and the upscale pass still runs, changing the dimensions — see the
counterexample.) -/
theorem cancelled_run_results (img : Img) (ps : PaletteSettings)
    (palette : List Rgba) (algo : DistanceAlgorithm) (os : OutputSettings)
    (hw : 1 ≤ img.width) (hh : 1 ≤ img.height)
    (hcpd : 1 ≤ ps.chunks_per_dimension) (hops : 1 ≤ os.output_px_size)
    (hgrid : 1 ≤ img.height /
      get_closest_factor ((1 : Nat) <<< (os.output_px_size - 1)) img.width) :
    get_palette img ps algo true = [] ∧
    dither_palette img palette algo os true =
      some (Img.new
        (if os.dithering_scale = 1 then
          img.width /
            get_closest_factor ((1 : Nat) <<< (os.output_px_size - 1)) img.width
         else
          img.width /
              get_closest_factor ((1 : Nat) <<< (os.output_px_size - 1)) img.width *
            os.dithering_scale)
        (if os.dithering_scale = 1 then
          img.height /
            get_closest_factor ((1 : Nat) <<< (os.output_px_size - 1)) img.width
         else
          img.height /
              get_closest_factor ((1 : Nat) <<< (os.output_px_size - 1)) img.width *
            os.dithering_scale)) := by
  have hb := get_closest_factor_bounds ((1 : Nat) <<< (os.output_px_size - 1))
    img.width (one_shiftLeft_pos _) hw
  have hnwc : 0 < img.width /
      get_closest_factor ((1 : Nat) <<< (os.output_px_size - 1)) img.width :=
    Nat.div_pos hb.2.2 hb.2.1
  constructor
  · rfl
  · unfold dither_palette
    rw [if_pos ⟨rfl, hnwc, hgrid⟩]

/-- Counterexample to C7 as stated: a 4×1 image with `output_px_size = 3`
snaps the block size to 4, so the block grid has zero rows; with
`scale_output_to_original = true` the cancelled run still performs the
upscale pass and returns a 4×0 image, not the 2×0 image of the computed
coarse output dimensions. -/
theorem cancelled_run_results_counterexample :
    (dither_palette ⟨4, 1, fun _ _ => ⟨9, 9, 9, 255⟩⟩ []
        DistanceAlgorithm.Euclidean ⟨3, 1, 2, true⟩ true).map Img.width =
      some 4 ∧
    ¬ ((dither_palette ⟨4, 1, fun _ _ => ⟨9, 9, 9, 255⟩⟩ []
        DistanceAlgorithm.Euclidean ⟨3, 1, 2, true⟩ true).map Img.width =
      some 2) := by
  constructor
  · decide
  · decide

/-- Witness for the amended C7 on the 2×2 gray image: canceled extraction
yields `[]` and canceled rendering yields the untouched 2×2 output. -/
theorem cancelled_run_results_witness :
    get_palette gray2 ⟨2, 1⟩ DistanceAlgorithm.Manhattan true = [] ∧
    dither_palette gray2 [] DistanceAlgorithm.Manhattan ⟨2, 1, 2, true⟩ true =
      some (Img.new 2 2) := by
  have h := cancelled_run_results gray2 ⟨2, 1⟩ [] DistanceAlgorithm.Manhattan
    ⟨2, 1, 2, true⟩ (by decide) (by decide) (by decide) (by decide) (by decide)
  exact ⟨h.1, h.2.trans rfl⟩

theorem putPixel_width (o : Img) (x y : Nat) (c : Rgba) :
    (putPixel o x y c).width = o.width := rfl

theorem putPixel_height (o : Img) (x y : Nat) (c : Rgba) :
    (putPixel o x y c).height = o.height := rfl

theorem putPixel_pixel_self (o : Img) (x y : Nat) (c : Rgba) :
    (putPixel o x y c).pixel x y = c := by
  simp [putPixel]

theorem putPixel_pixel_ne (o : Img) (x y : Nat) (c : Rgba) (u w : Nat)
    (h : ¬ (u = x ∧ w = y)) : (putPixel o x y c).pixel u w = o.pixel u w := by
  simp only [putPixel]
  rw [if_neg h]

theorem writeCol_width (X : Nat) (v : Nat → Nat → Rgba) :
    ∀ (ys : List Nat) (o : Img), (writeCol o X ys v).width = o.width
  | [], _ => rfl
  | _ :: ys, o => writeCol_width X v ys _

theorem writeCol_height (X : Nat) (v : Nat → Nat → Rgba) :
    ∀ (ys : List Nat) (o : Img), (writeCol o X ys v).height = o.height
  | [], _ => rfl
  | _ :: ys, o => writeCol_height X v ys _

theorem writeCol_pixel_ne_col (X : Nat) (v : Nat → Nat → Rgba) (a b : Nat)
    (hne : a ≠ X) :
    ∀ (ys : List Nat) (o : Img), (writeCol o X ys v).pixel a b = o.pixel a b
  | [], _ => rfl
  | y :: ys, o => by
    show (writeCol (putPixel o X y (v X y)) X ys v).pixel a b = o.pixel a b
    rw [writeCol_pixel_ne_col X v a b hne ys _,
      putPixel_pixel_ne o X y (v X y) a b (fun hc => hne hc.1)]

theorem writeCol_pixel_not_mem (X : Nat) (v : Nat → Nat → Rgba) (a b : Nat) :
    ∀ (ys : List Nat) (o : Img), b ∉ ys →
      (writeCol o X ys v).pixel a b = o.pixel a b
  | [], _, _ => rfl
  | y :: ys, o, hb => by
    show (writeCol (putPixel o X y (v X y)) X ys v).pixel a b = o.pixel a b
    rw [writeCol_pixel_not_mem X v a b ys _ (fun hc => hb (List.mem_cons_of_mem _ hc)),
      putPixel_pixel_ne o X y (v X y) a b
        (fun hc => hb (hc.2 ▸ List.mem_cons_self _ _))]

theorem writeCol_pixel_mem (X : Nat) (v : Nat → Nat → Rgba) (Y : Nat) :
    ∀ (ys : List Nat) (o : Img), Y ∈ ys →
      (writeCol o X ys v).pixel X Y = v X Y
  | [], _, h => absurd h (List.not_mem_nil Y)
  | y :: ys, o, h => by
    show (writeCol (putPixel o X y (v X y)) X ys v).pixel X Y = v X Y
    by_cases hY : Y ∈ ys
    · exact writeCol_pixel_mem X v Y ys _ hY
    · have hYy : Y = y := by
        rcases List.mem_cons.1 h with h1 | h1
        · exact h1
        · exact absurd h1 hY
      rw [writeCol_pixel_not_mem X v X Y ys _ hY, hYy, putPixel_pixel_self]

theorem writeRect_width (ys : List Nat) (v : Nat → Nat → Rgba) :
    ∀ (xs : List Nat) (o : Img), (writeRect o xs ys v).width = o.width
  | [], _ => rfl
  | x :: xs, o => by
    show (writeRect (writeCol o x ys v) xs ys v).width = o.width
    rw [writeRect_width ys v xs _, writeCol_width]

theorem writeRect_height (ys : List Nat) (v : Nat → Nat → Rgba) :
    ∀ (xs : List Nat) (o : Img), (writeRect o xs ys v).height = o.height
  | [], _ => rfl
  | x :: xs, o => by
    show (writeRect (writeCol o x ys v) xs ys v).height = o.height
    rw [writeRect_height ys v xs _, writeCol_height]

theorem writeRect_pixel_not_mem_x (ys : List Nat) (v : Nat → Nat → Rgba)
    (a b : Nat) :
    ∀ (xs : List Nat) (o : Img), a ∉ xs →
      (writeRect o xs ys v).pixel a b = o.pixel a b
  | [], _, _ => rfl
  | x :: xs, o, ha => by
    show (writeRect (writeCol o x ys v) xs ys v).pixel a b = o.pixel a b
    rw [writeRect_pixel_not_mem_x ys v a b xs _
        (fun hc => ha (List.mem_cons_of_mem _ hc)),
      writeCol_pixel_ne_col x v a b
        (fun hc => ha (hc ▸ List.mem_cons_self _ _)) ys o]

theorem writeRect_pixel_not_mem_y (ys : List Nat) (v : Nat → Nat → Rgba)
    (a b : Nat) (hb : b ∉ ys) :
    ∀ (xs : List Nat) (o : Img), (writeRect o xs ys v).pixel a b = o.pixel a b
  | [], _ => rfl
  | x :: xs, o => by
    show (writeRect (writeCol o x ys v) xs ys v).pixel a b = o.pixel a b
    rw [writeRect_pixel_not_mem_y ys v a b hb xs _,
      writeCol_pixel_not_mem x v a b ys o hb]

theorem writeRect_pixel_mem (ys : List Nat) (v : Nat → Nat → Rgba)
    (X Y : Nat) (hy : Y ∈ ys) :
    ∀ (xs : List Nat) (o : Img), X ∈ xs →
      (writeRect o xs ys v).pixel X Y = v X Y
  | [], _, h => absurd h (List.not_mem_nil X)
  | x :: xs, o, h => by
    show (writeRect (writeCol o x ys v) xs ys v).pixel X Y = v X Y
    by_cases hX : X ∈ xs
    · exact writeRect_pixel_mem ys v X Y hy xs _ hX
    · have hXx : X = x := by
        rcases List.mem_cons.1 h with h1 | h1
        · exact h1
        · exact absurd h1 hX
      rw [writeRect_pixel_not_mem_x ys v X Y xs _ hX, hXx,
        writeCol_pixel_mem x v Y ys o hy]

/-- Block/offset decomposition is unique: `f*x + dx` with `dx < f` determines
both the block index and the offset. -/
theorem block_decomp_unique (f x dx x' dx' : Nat) (h1 : dx < f) (h2 : dx' < f)
    (heq : f * x + dx = f * x' + dx') : x = x' ∧ dx = dx' := by
  have hf : 0 < f := by omega
  have e1 : (f * x + dx) / f = x := by
    rw [Nat.mul_add_div hf, Nat.div_eq_of_lt h1]
    omega
  have e2 : (f * x' + dx') / f = x' := by
    rw [Nat.mul_add_div hf, Nat.div_eq_of_lt h2]
    omega
  rw [heq] at e1
  rw [e2] at e1
  subst e1
  refine ⟨rfl, ?_⟩
  omega

/-- The target point is not among the columns of a different block. -/
theorem target_not_mem_cols (f x dx x' : Nat) (hdx : dx < f) (hne : x' ≠ x) :
    f * x + dx ∉ (List.range f).map fun px_x => f * x' + px_x := by
  intro hmem
  rw [List.mem_map] at hmem
  obtain ⟨dx', hdx', heq⟩ := hmem
  rw [List.mem_range] at hdx'
  exact hne (block_decomp_unique f x' dx' x dx hdx' hdx heq).1

theorem target_mem_cols (f x dx : Nat) (hdx : dx < f) :
    f * x + dx ∈ (List.range f).map fun px_x => f * x + px_x :=
  List.mem_map.2 ⟨dx, List.mem_range.2 hdx, rfl⟩

theorem upscaleRow_width (src : Img) (factor x : Nat) :
    ∀ (ys : List Nat) (o : Img),
      (upscaleRow src factor x ys o).width = o.width
  | [], _ => rfl
  | y :: ys, o => by
    show (upscaleRow src factor x ys _).width = o.width
    rw [upscaleRow_width src factor x ys _, writeRect_width]

theorem upscaleRow_height (src : Img) (factor x : Nat) :
    ∀ (ys : List Nat) (o : Img),
      (upscaleRow src factor x ys o).height = o.height
  | [], _ => rfl
  | y :: ys, o => by
    show (upscaleRow src factor x ys _).height = o.height
    rw [upscaleRow_height src factor x ys _, writeRect_height]

/-- A row pass for a different block column never touches the target
point. -/
theorem upscaleRow_pixel_ne_col (src : Img) (f x dx y dy x' : Nat)
    (hdx : dx < f) (hne : x' ≠ x) :
    ∀ (ys : List Nat) (o : Img),
      (upscaleRow src f x' ys o).pixel (f * x + dx) (f * y + dy) =
        o.pixel (f * x + dx) (f * y + dy)
  | [], _ => rfl
  | y' :: ys, o => by
    show (upscaleRow src f x' ys _).pixel _ _ = o.pixel _ _
    rw [upscaleRow_pixel_ne_col src f x dx y dy x' hdx hne ys _,
      writeRect_pixel_not_mem_x _ _ _ _ _ o (target_not_mem_cols f x dx x' hdx hne)]

/-- A row pass that never visits the target row leaves the target point
unchanged. -/
theorem upscaleRow_pixel_not_mem (src : Img) (f x dx y dy x' : Nat)
    (hdy : dy < f) :
    ∀ (ys : List Nat) (o : Img), y ∉ ys →
      (upscaleRow src f x' ys o).pixel (f * x + dx) (f * y + dy) =
        o.pixel (f * x + dx) (f * y + dy)
  | [], _, _ => rfl
  | y' :: ys, o, hy => by
    show (upscaleRow src f x' ys _).pixel _ _ = o.pixel _ _
    rw [upscaleRow_pixel_not_mem src f x dx y dy x' hdy ys _
        (fun hc => hy (List.mem_cons_of_mem _ hc))]
    have hyne : y' ≠ y := fun hc => hy (hc ▸ List.mem_cons_self _ _)
    exact writeRect_pixel_not_mem_y _ _ _ _
      (target_not_mem_cols f y dy y' hdy hyne) _ o

/-- A row pass through the target block row writes the source pixel at the
target point. -/
theorem upscaleRow_pixel_mem (src : Img) (f x dx y dy : Nat) (hdx : dx < f)
    (hdy : dy < f) :
    ∀ (ys : List Nat) (o : Img), y ∈ ys →
      (upscaleRow src f x ys o).pixel (f * x + dx) (f * y + dy) =
        src.pixel x y
  | [], _, h => absurd h (List.not_mem_nil y)
  | y' :: ys, o, h => by
    show (upscaleRow src f x ys _).pixel _ _ = src.pixel x y
    by_cases hy : y ∈ ys
    · exact upscaleRow_pixel_mem src f x dx y dy hdx hdy ys _ hy
    · have hyy : y = y' := by
        rcases List.mem_cons.1 h with h1 | h1
        · exact h1
        · exact absurd h1 hy
      rw [upscaleRow_pixel_not_mem src f x dx y dy x hdy ys _ hy, ← hyy]
      exact writeRect_pixel_mem _ _ _ _ (target_mem_cols f y dy hdy) _ o
        (target_mem_cols f x dx hdx)

theorem upscaleFold_width (src : Img) (factor : Nat) (ys : List Nat) :
    ∀ (xl : List Nat) (o : Img),
      (xl.foldl (fun o x => upscaleRow src factor x ys o) o).width = o.width
  | [], _ => rfl
  | x :: xl, o => by
    rw [List.foldl_cons, upscaleFold_width src factor ys xl _,
      upscaleRow_width]

theorem upscaleFold_height (src : Img) (factor : Nat) (ys : List Nat) :
    ∀ (xl : List Nat) (o : Img),
      (xl.foldl (fun o x => upscaleRow src factor x ys o) o).height = o.height
  | [], _ => rfl
  | x :: xl, o => by
    rw [List.foldl_cons, upscaleFold_height src factor ys xl _,
      upscaleRow_height]

theorem upscaleFold_pixel_not_mem (src : Img) (f x dx y dy : Nat)
    (hdx : dx < f) (ys : List Nat) :
    ∀ (xl : List Nat) (o : Img), x ∉ xl →
      ((xl.foldl (fun o x' => upscaleRow src f x' ys o) o).pixel
        (f * x + dx) (f * y + dy)) = o.pixel (f * x + dx) (f * y + dy)
  | [], _, _ => rfl
  | x' :: xl, o, hx => by
    rw [List.foldl_cons,
      upscaleFold_pixel_not_mem src f x dx y dy hdx ys xl _
        (fun hc => hx (List.mem_cons_of_mem _ hc)),
      upscaleRow_pixel_ne_col src f x dx y dy x' hdx
        (fun hc => hx (hc ▸ List.mem_cons_self _ _)) ys o]

theorem upscaleFold_pixel_mem (src : Img) (f x dx y dy : Nat) (hdx : dx < f)
    (hdy : dy < f) (ys : List Nat) (hy : y ∈ ys) :
    ∀ (xl : List Nat) (o : Img), x ∈ xl →
      ((xl.foldl (fun o x' => upscaleRow src f x' ys o) o).pixel
        (f * x + dx) (f * y + dy)) = src.pixel x y
  | [], _, h => absurd h (List.not_mem_nil x)
  | x' :: xl, o, h => by
    rw [List.foldl_cons]
    by_cases hx : x ∈ xl
    · exact upscaleFold_pixel_mem src f x dx y dy hdx hdy ys hy xl _ hx
    · have hxx : x = x' := by
        rcases List.mem_cons.1 h with h1 | h1
        · exact h1
        · exact absurd h1 hx
      rw [upscaleFold_pixel_not_mem src f x dx y dy hdx ys xl _ hx, ← hxx]
      exact upscaleRow_pixel_mem src f x dx y dy hdx hdy ys o hy

/-- The upscaled image has the stated dimensions. -/
theorem upscale_width (src : Img) (factor output_w output_h : Nat) :
    (upscale src factor output_w output_h).width = output_w * factor := by
  unfold upscale
  rw [upscaleFold_width]
  rfl

theorem upscale_height (src : Img) (factor output_w output_h : Nat) :
    (upscale src factor output_w output_h).height = output_h * factor := by
  unfold upscale
  rw [upscaleFold_height]
  rfl

/-- Every `factor × factor` destination block of the upscale pass is constant,
equal to the corresponding source pixel. -/
theorem upscale_pixel (src : Img) (factor output_w output_h x y dx dy : Nat)
    (hx : x < output_w) (hy : y < output_h) (hdx : dx < factor)
    (hdy : dy < factor) :
    (upscale src factor output_w output_h).pixel (factor * x + dx)
      (factor * y + dy) = src.pixel x y := by
  unfold upscale
  exact upscaleFold_pixel_mem src factor x dx y dy hdx hdy
    (List.range output_h) (List.mem_range.2 hy) (List.range output_w) _
    (List.mem_range.2 hx)

/-- Claim C8 amended: with `scale_output_to_original = true` and
`dithering_scale > 1` (flag clear), a successful `dither_palette` run returns
the coarse image upscaled by `factor = snapped_block_size / dithering_scale`
— the snapped size `get_closest_factor(2^(output_px_size-1), width)`, not the
raw power of two — with dimensions `output_w * factor × output_h * factor`,
and every `factor × factor` destination block constant, equal to the
corresponding coarse pixel. -/
theorem dither_palette_upscale_spec (input : Img) (palette : List Rgba)
    (algo : DistanceAlgorithm) (os : OutputSettings) (out : Img)
    (hscale : os.scale_output_to_original = true)
    (hds : 2 ≤ os.dithering_scale) (hw : 1 ≤ input.width)
    (hops : 1 ≤ os.output_px_size) (hdl : 1 ≤ os.dithering_likelihood)
    (hout : dither_palette input palette algo os false = some out) :
    out.width =
      input.width /
          get_closest_factor ((1 : Nat) <<< (os.output_px_size - 1)) input.width *
          os.dithering_scale *
        (get_closest_factor ((1 : Nat) <<< (os.output_px_size - 1)) input.width /
          os.dithering_scale) ∧
    out.height =
      input.height /
          get_closest_factor ((1 : Nat) <<< (os.output_px_size - 1)) input.width *
          os.dithering_scale *
        (get_closest_factor ((1 : Nat) <<< (os.output_px_size - 1)) input.width /
          os.dithering_scale) ∧
    ∀ coarse : Img,
      ditherLoop input palette algo os.dithering_likelihood os.dithering_scale
          (get_closest_factor ((1 : Nat) <<< (os.output_px_size - 1)) input.width)
          (gridCoords
            (input.width /
              get_closest_factor ((1 : Nat) <<< (os.output_px_size - 1)) input.width)
            (input.height /
              get_closest_factor ((1 : Nat) <<< (os.output_px_size - 1)) input.width))
          (some (Img.new
            (if os.dithering_scale = 1 then
              input.width /
                get_closest_factor ((1 : Nat) <<< (os.output_px_size - 1)) input.width
             else
              input.width /
                  get_closest_factor ((1 : Nat) <<< (os.output_px_size - 1)) input.width *
                os.dithering_scale)
            (if os.dithering_scale = 1 then
              input.height /
                get_closest_factor ((1 : Nat) <<< (os.output_px_size - 1)) input.width
             else
              input.height /
                  get_closest_factor ((1 : Nat) <<< (os.output_px_size - 1)) input.width *
                os.dithering_scale))) = some coarse →
      ∀ x y dx dy : Nat,
        x < input.width /
            get_closest_factor ((1 : Nat) <<< (os.output_px_size - 1)) input.width *
          os.dithering_scale →
        y < input.height /
            get_closest_factor ((1 : Nat) <<< (os.output_px_size - 1)) input.width *
          os.dithering_scale →
        dx < get_closest_factor ((1 : Nat) <<< (os.output_px_size - 1)) input.width /
          os.dithering_scale →
        dy < get_closest_factor ((1 : Nat) <<< (os.output_px_size - 1)) input.width /
          os.dithering_scale →
        out.pixel
          (get_closest_factor ((1 : Nat) <<< (os.output_px_size - 1)) input.width /
              os.dithering_scale * x + dx)
          (get_closest_factor ((1 : Nat) <<< (os.output_px_size - 1)) input.width /
              os.dithering_scale * y + dy) = coarse.pixel x y := by
  have hds1 : ¬ (os.dithering_scale = 1) := by omega
  unfold dither_palette at hout
  rw [if_neg (fun hc => by simp at hc)] at hout
  rw [Option.map_eq_some'] at hout
  obtain ⟨coarse0, hres, hfout⟩ := hout
  rw [if_pos hscale] at hfout
  simp only [if_neg hds1] at hfout hres
  subst hfout
  refine ⟨upscale_width _ _ _ _, upscale_height _ _ _ _, ?_⟩
  intro coarse hcoarse x y dx dy hx hy hdx hdy
  simp only [if_neg hds1] at hcoarse
  rw [hres] at hcoarse
  have hcc : coarse0 = coarse := by
    simpa using hcoarse
  subst hcc
  exact upscale_pixel coarse0 _ _ _ x y dx dy hx hy hdx hdy

/-- Counterexample to C8 as stated: a 6×6 image with `output_px_size = 3`
(raw block 4) snaps the block size to 3; with `dithering_scale = 2` the
upscale factor is `3 / 2 = 1`, so the final width is 4, not
`output_w * (2^(3-1) / 2) = 8` as the raw pre-snap formula claims. -/
theorem dither_palette_upscale_counterexample :
    (dither_palette ⟨6, 6, fun _ _ => ⟨9, 9, 9, 255⟩⟩ [⟨0, 0, 0, 255⟩]
        DistanceAlgorithm.Euclidean ⟨3, 1, 2, true⟩ false).map Img.width =
      some 4 ∧
    ¬ ((dither_palette ⟨6, 6, fun _ _ => ⟨9, 9, 9, 255⟩⟩ [⟨0, 0, 0, 255⟩]
        DistanceAlgorithm.Euclidean ⟨3, 1, 2, true⟩ false).map Img.width =
      some (4 * (2 ^ (3 - 1) / 2))) := by
  constructor
  · decide
  · decide

/-- Witness for the amended C8 on the 2×2 gray image: the upscaled output is
`2 × 2` (`output_w * factor = 2 * 1`). -/
theorem dither_palette_upscale_spec_witness :
    (dither_palette gray2 [⟨0, 0, 0, 255⟩, ⟨255, 255, 255, 255⟩]
        DistanceAlgorithm.Manhattan ⟨2, 1, 2, true⟩ false).map Img.width =
      some 2 := by
  have hs : (dither_palette gray2 [⟨0, 0, 0, 255⟩, ⟨255, 255, 255, 255⟩]
      DistanceAlgorithm.Manhattan ⟨2, 1, 2, true⟩ false).isSome = true := by
    decide
  have h := dither_palette_upscale_spec gray2
    [⟨0, 0, 0, 255⟩, ⟨255, 255, 255, 255⟩] DistanceAlgorithm.Manhattan
    ⟨2, 1, 2, true⟩ ((dither_palette gray2
      [⟨0, 0, 0, 255⟩, ⟨255, 255, 255, 255⟩] DistanceAlgorithm.Manhattan
      ⟨2, 1, 2, true⟩ false).get hs) rfl (by decide) (by decide) (by decide)
    (by decide) (Option.some_get hs).symm
  rw [← Option.some_get hs, Option.map_some', h.1]
  rfl
